import Mathlib

/-!
Verification of the EasyPath conversational-flow engine and messaging gateway.

This file shallowly embeds the Python source of the repository:
pure functions become Lean functions on `List Char` / `String`, stateful
code becomes explicit state passing, fallible code returns `Except` or
`Option`.  Floating-point wall-clock values and token costs are modelled
as natural numbers (only the zero literals from the source matter to the
stated properties); Python strings are modelled over their character
lists, and Python's `re`/`str` primitives are implemented character by
character, restricted to ASCII where the source relies on Unicode tables.
-/

namespace EasyPath

/-! ## Python string primitives

`isWS` models the character class of Python's `\s` / `str.strip`
(ASCII fragment). -/

def isWS (c : Char) : Bool :=
  c == ' ' || c == '\t' || c == '\n' || c == '\r' || c == '\x0b' || c == '\x0c'

/-- Python `s.lstrip()` on a character list. -/
def stripLeft (l : List Char) : List Char := l.dropWhile isWS

/-- Python `s.rstrip()` on a character list. -/
def stripRight (l : List Char) : List Char := (l.reverse.dropWhile isWS).reverse

/-- Python `s.strip()` on a character list. -/
def pyStrip (l : List Char) : List Char := stripRight (stripLeft l)

/-- Whether `pat` is a prefix of `l` (`List.isPrefixOf`, restated so that
equations reduce structurally). -/
def startsWith : List Char → List Char → Bool
  | [], _ => true
  | _ :: _, [] => false
  | p :: ps, c :: cs => p == c && startsWith ps cs

/-- Python's substring operator `pat in l` (`str.__contains__`). -/
def containsSub (pat : List Char) : List Char → Bool
  | [] => pat.isEmpty
  | c :: rest => startsWith pat (c :: rest) || containsSub pat rest

/-- Python `str.upper` on one character (ASCII fragment). -/
def pyUpperChar (c : Char) : Char :=
  if 'a' ≤ c && c ≤ 'z' then Char.ofNat (c.toNat - 32) else c

/-- Python `str.lower` on one character (ASCII fragment). -/
def pyLowerChar (c : Char) : Char :=
  if 'A' ≤ c && c ≤ 'Z' then Char.ofNat (c.toNat + 32) else c

def pyUpper (l : List Char) : List Char := l.map pyUpperChar

def pyLower (l : List Char) : List Char := l.map pyLowerChar

/-! ## Loop Evaluator (`apps/engine/app/core/loop_evaluator.py`)

`_parse_evaluation_response` decides whether the flow should stay on the
current node from the raw LLM answer. -/

def loopToken : List Char := "LOOP".toList

def proceedToken : List Char := "PROCEED".toList

/-- `_parse_evaluation_response` (loop_evaluator.py, lines 174-202): the
cleaned response is `response.strip().upper()`; the answer is LOOP exactly
when the LOOP token occurs without the PROCEED token. -/
def parseEvaluationResponse (response : String) : Bool :=
  if response = "" then false
  else if containsSub loopToken (pyUpper (pyStrip response.toList)) &&
      !containsSub proceedToken (pyUpper (pyStrip response.toList)) then true
  else if containsSub proceedToken (pyUpper (pyStrip response.toList)) then false
  else false

/-! ## Data model (`apps/engine/app/models/`)

Translated from `flow.py`, `message.py` and `session.py`.  The engine
`Node` model declares exactly the fields below — in particular it has no
`loop_enabled`, `node_description` or `auto_return_to_previous` field,
although `orchestrator.py`, `loop_evaluator.py` and `pathway_selector.py`
read those attributes (pydantic raises `AttributeError` on such reads).
Float fields (`temperature`) are modelled as rationals; `Message.timestamp`
is omitted (never read by the code under verification). -/

structure Prompt where
  context : String := ""
  objective : String := ""
  notes : String := ""
  examples : String := ""
deriving Repr, DecidableEq

structure VariableExtraction where
  name : String := ""
  description : String := ""
  required : Bool := true
deriving Repr, DecidableEq

structure Node where
  id : String
  node_type : String
  prompt : Prompt := {}
  is_start : Bool := false
  is_end : Bool := false
  use_llm : Bool := true
  is_global : Bool := false
  extract_vars : List VariableExtraction := []
  temperature : Rat := 1 / 5
  skip_user_response : Bool := false
  overrides_global_pathway : Bool := true
  loop_condition : String := ""
deriving Repr, DecidableEq

structure Connection where
  id : String
  label : String
  description : String
  else_option : Bool := false
  source : String
  target : String
deriving Repr, DecidableEq

structure Flow where
  first_node_id : String
  nodes : List Node
  connections : List Connection
  global_objective : String := ""
  global_tone : String := ""
  global_language : String := ""
  global_behaviour : String := ""
  global_values : String := ""
deriving Repr, DecidableEq

/-- `Flow.get_node_by_id`: `next(node for node in self.nodes if node.id ==
node_id)`; the `StopIteration` of an exhausted generator is modelled by
`Option.none`. -/
def Flow.getNodeById (f : Flow) (node_id : String) : Option Node :=
  f.nodes.find? (fun node => node.id == node_id)

/-- `Flow.get_connection`: first connection between the two nodes, if any. -/
def Flow.getConnection (f : Flow) (source_id target_id : String) :
    Option Connection :=
  f.connections.find? (fun conn => conn.source == source_id && conn.target == target_id)

structure Message where
  role : String
  content : String
deriving Repr, DecidableEq

/-- A Python value stored in `ChatSession.extracted_variables`
(`Dict[str, Any]`); restricted to the scalar values that reach it:
strings from the extractor, and `None`/numbers/booleans from
deserialized JSON. -/
inductive PyVal where
  | none
  | str (s : String)
  | int (n : Int)
  | bool (b : Bool)
deriving Repr, DecidableEq

/-- Python `str()` on a `PyVal`. -/
def pyValStr : PyVal → String
  | .none => "None"
  | .str s => s
  | .int n => toString n
  | .bool true => "True"
  | .bool false => "False"

/-- In-place update of an association list, with Python-`dict` semantics:
overwrite the first binding of the key or append a new one. -/
def assocSet {α : Type} (l : List (String × α)) (k : String) (v : α) :
    List (String × α) :=
  match l with
  | [] => [(k, v)]
  | (k', v') :: t => if k' = k then (k', v) :: t else (k', v') :: assocSet t k v

structure ChatSession where
  session_id : String
  current_node_id : String
  previous_node_id : Option String := Option.none
  history : List Message := []
  extracted_variables : List (String × PyVal) := []
deriving Repr, DecidableEq

def ChatSession.addUserMessage (s : ChatSession) (content : String) : ChatSession :=
  { s with history := s.history ++ [{ role := "user", content := content }] }

def ChatSession.addAssistantMessage (s : ChatSession) (content : String) : ChatSession :=
  { s with history := s.history ++ [{ role := "assistant", content := content }] }

def ChatSession.setVariable (s : ChatSession) (name : String) (value : PyVal) :
    ChatSession :=
  { s with extracted_variables := assocSet s.extracted_variables name value }

/-! ## Variable substitution (`apps/engine/app/core/flow_executor.py`)

`_substitute_variables` replaces `{{name}}` placeholders by
`str(session.extracted_variables.get(name))` when the lookup does not
yield `None`, scanning left to right like `re.sub` with the pattern
named by a brace pair around a non-empty `\w+` group (ASCII fragment). -/

def isWordChar (c : Char) : Bool :=
  ('a' ≤ c && c ≤ 'z') || ('A' ≤ c && c ≤ 'Z') || ('0' ≤ c && c ≤ '9') || c == '_'

/-- The verbatim placeholder text for the group `w`, i.e. `match.group(0)`. -/
def placeholderOf (w : List Char) : List Char :=
  '{' :: '{' :: (w ++ ['}', '}'])

/-- The replacement `replacer` produces for the matched group `w`:
`str(value)` when the lookup does not yield `None`, the full match
otherwise. -/
def replacerFor (vars : List (String × PyVal)) (w : List Char) : List Char :=
  match List.lookup (String.mk w) vars with
  | Option.some v => if v = PyVal.none then placeholderOf w else (pyValStr v).toList
  | Option.none => placeholderOf w

/-- Left-to-right scan of `re.sub` for the placeholder pattern, with a fuel
argument (the fuel is always at least the length of the remaining text, so
it never runs out): a match needs `{{`, a maximal non-empty `\w+` run, and
`}}`; everything else is copied through one character at a time. -/
def substituteVariablesAux (vars : List (String × PyVal)) :
    Nat → List Char → List Char
  | 0, l => l
  | _ + 1, [] => []
  | fuel + 1, [c] => c :: substituteVariablesAux vars fuel []
  | fuel + 1, c :: c₂ :: rest =>
    if c = '{' ∧ c₂ = '{' then
      let w := rest.takeWhile isWordChar
      let r := rest.dropWhile isWordChar
      if w.isEmpty then c :: substituteVariablesAux vars fuel (c₂ :: rest)
      else if startsWith ['}', '}'] r then
        replacerFor vars w ++ substituteVariablesAux vars fuel (r.drop 2)
      else c :: substituteVariablesAux vars fuel (c₂ :: rest)
    else c :: substituteVariablesAux vars fuel (c₂ :: rest)

/-- `_substitute_variables(text, session)` (flow_executor.py, lines 11-35). -/
def substituteVariables (text : String) (session : ChatSession) : String :=
  if text = "" then text
  else String.mk
    (substituteVariablesAux session.extracted_variables text.toList.length text.toList)

/-- For comparing `_substitute_variables` against the claim's law, a text
decomposes into the placeholder occurrences the left-to-right scan finds
and the single characters outside them. -/
inductive Segment where
  | lit (c : Char)
  | ph (name : List Char)
deriving Repr, DecidableEq

/-- The leftmost-scan decomposition of a text: at each position either a
whole placeholder occurrence (`{{`, a maximal non-empty `\w+` run, `}}`)
or one literal character.  Written from the claim's words, with the same
occurrence notion as the regular expression of the source. -/
def claimSegmentsAux : Nat → List Char → List Segment
  | 0, l => l.map Segment.lit
  | _ + 1, [] => []
  | fuel + 1, [c] => Segment.lit c :: claimSegmentsAux fuel []
  | fuel + 1, c :: c₂ :: rest =>
    if c = '{' ∧ c₂ = '{' then
      let w := rest.takeWhile isWordChar
      let r := rest.dropWhile isWordChar
      if w.isEmpty then Segment.lit c :: claimSegmentsAux fuel (c₂ :: rest)
      else if startsWith ['}', '}'] r then
        Segment.ph w :: claimSegmentsAux fuel (r.drop 2)
      else Segment.lit c :: claimSegmentsAux fuel (c₂ :: rest)
    else Segment.lit c :: claimSegmentsAux fuel (c₂ :: rest)

def claimSegments (l : List Char) : List Segment := claimSegmentsAux l.length l

/-- Reading a decomposition back verbatim: each literal character as
itself, each placeholder occurrence as its full text `{{name}}`. -/
def segDecode : List Segment → List Char
  | [] => []
  | Segment.lit c :: t => c :: segDecode t
  | Segment.ph w :: t => placeholderOf w ++ segDecode t

/-- The claim's substitution law over a decomposition: characters outside
placeholders are unchanged, and each `{{name}}` occurrence becomes
`str(v)` exactly when the lookup of `name` yields a value `v` that is not
`None`, and stays verbatim when `name` is absent or maps to `None`. -/
def segRender (vars : List (String × PyVal)) : List Segment → List Char
  | [] => []
  | Segment.lit c :: t => c :: segRender vars t
  | Segment.ph w :: t =>
      (match List.lookup (String.mk w) vars with
       | Option.some v =>
           if v = PyVal.none then placeholderOf w else (pyValStr v).toList
       | Option.none => placeholderOf w) ++ segRender vars t

/-! ## Variable Extractor (`apps/engine/app/core/variable_extractor.py`)

`_parse_extraction_response` is modelled from the parsed top-level JSON
object onward (the claim quantifies over well-formed JSON-object
responses; the `json` library is an external collaborator).  JSON numbers
are modelled as integers; arrays and nested objects do not occur in the
stated properties. -/

inductive JVal where
  | null
  | str (s : String)
  | int (n : Int)
  | bool (b : Bool)
deriving Repr, DecidableEq

/-- Python `str()` of a parsed JSON scalar. -/
def pyStrJ : JVal → String
  | .null => "None"
  | .str s => s
  | .int n => toString n
  | .bool true => "True"
  | .bool false => "False"

def isDigitChar (c : Char) : Bool := '0' ≤ c && c ≤ '9'

def parseDigitsAux : List Char → Nat → Option Nat
  | [], acc => Option.some acc
  | c :: t, acc =>
      if isDigitChar c then parseDigitsAux t (acc * 10 + (c.toNat - '0'.toNat))
      else Option.none

def parseDigitsNonempty (l : List Char) : Option Nat :=
  match l with
  | [] => Option.none
  | _ => parseDigitsAux l 0

/-- Python `int(value)` on an already-stripped string: optional sign, then
one or more digits (underscore separators are outside the model);
`ValueError` is `Option.none`. -/
def pyToInt (l : List Char) : Option Int :=
  match l with
  | '+' :: t => (parseDigitsNonempty t).map (fun n => (n : Int))
  | '-' :: t => (parseDigitsNonempty t).map (fun n => -(n : Int))
  | _ => (parseDigitsNonempty l).map (fun n => (n : Int))

/-- `_validate_extracted_value` (variable_extractor.py, lines 351-395):
length cap, then name-keyed validators (email, phone/telefone,
age/idade); each failing check returns `False`, otherwise `True`. -/
def validateExtractedValue (var_config : VariableExtraction)
    (value : List Char) : Bool :=
  if value.length > 1000 then false
  else
    let nl := pyLower var_config.name.toList
    if containsSub "email".toList nl &&
        !(value.contains '@' && value.contains '.') then false
    else if (containsSub "phone".toList nl || containsSub "telefone".toList nl) &&
        (value.filter isDigitChar).length < 8 then false
    else if containsSub "age".toList nl || containsSub "idade".toList nl then
      match pyToInt value with
      | Option.some age => if age < 0 || age > 150 then false else true
      | Option.none => false
    else true

/-- `extracted_raw.get(name)`: Python's `dict.get` yields `None` both for
an absent key and for a JSON `null` value. -/
def collapseNull : Option JVal → Option JVal
  | Option.none => Option.none
  | Option.some jv => if jv = JVal.null then Option.none else Option.some jv

/-- One iteration of the `for var_config in var_configs` loop of
`_parse_extraction_response` (lines 305-343): skip absent/`null` values,
the `NOT_FOUND`/`NOT_PROVIDED` markers, values empty after
`str(...).strip()`, and values failing validation; otherwise store the
cleaned value under the variable's name. -/
def extractionStep (extracted_raw : List (String × JVal))
    (extracted : List (String × String)) (var_config : VariableExtraction) :
    List (String × String) :=
  match collapseNull (List.lookup var_config.name extracted_raw) with
  | Option.none => extracted
  | Option.some v =>
      if v = JVal.str "NOT_FOUND" ∨ v = JVal.str "NOT_PROVIDED" then extracted
      else
        let cleaned := pyStrip (pyStrJ v).toList
        if cleaned.isEmpty then extracted
        else if validateExtractedValue var_config cleaned then
          extracted ++ [(var_config.name, String.mk cleaned)]
        else extracted

/-- `_parse_extraction_response` after JSON decoding (lines 302-348). -/
def parseExtractionCore (extracted_raw : List (String × JVal))
    (var_configs : List VariableExtraction) : List (String × String) :=
  var_configs.foldl (extractionStep extracted_raw) []

/-! ## LLM client result (`apps/engine/app/llm/base.py`)

`LLMResult`; optional floats (timings, costs) are modelled as optional
naturals.  The LLM call itself is the external collaborator: callers are
parametrized by the `LLMResult` it would return. -/

structure LLMResult where
  success : Bool
  response : Option String
  error_message : Option String := Option.none
  timing_ms : Option Nat := Option.none
  model_name : Option String := Option.none
  input_tokens : Option Nat := Option.none
  output_tokens : Option Nat := Option.none
  total_tokens : Option Nat := Option.none
  estimated_cost_usd : Option Nat := Option.none
deriving Repr, DecidableEq

/-- Python `x or default` on an optional string (`None` and `""` are falsy). -/
def orDefaultStr (o : Option String) (d : String) : String :=
  match o with
  | Option.some s => if s = "" then d else s
  | Option.none => d

/-- Python `x or default` on an optional number (`None` and `0` are falsy). -/
def orDefaultNat (o : Option Nat) (d : Nat) : Nat :=
  match o with
  | Option.some n => if n = 0 then d else n
  | Option.none => d

/-- A Python exception crossing the embedding. -/
inductive PyErr where
  | attributeError
deriving Repr, DecidableEq

/-! ## Pathway Selector (`apps/engine/app/core/pathway_selector.py`) -/

def FUZZY_THRESHOLD : Nat := 80

/-- `node.node_description` (pathway_selector.py lines 34 and 40): the
engine `Node` model declares no such field, so pydantic raises
`AttributeError`; the read never yields a value. -/
def Node.getNodeDescription (_ : Node) : Except PyErr Empty :=
  Except.error PyErr.attributeError

/-- The virtual connection `_format_prompt` builds for a global node
(lines 31-38); its `description` argument reads `node.node_description`,
so the construction raises. -/
def virtualConnection (node : Node) (_current_node_id : String) :
    Except PyErr Connection :=
  match Node.getNodeDescription node with
  | Except.error e => Except.error e
  | Except.ok x => x.elim

/-- The candidate list of `_format_prompt` (lines 12-52): connections whose
source is the current node, then one virtual connection per node with
`is_global = true`. -/
def formatPromptConnections (flow : Flow) (current_node_id : String) :
    Except PyErr (List Connection) :=
  flow.nodes.foldlM
    (fun acc node =>
      if node.is_global then
        (virtualConnection node current_node_id).map (fun c => acc ++ [c])
      else Except.ok acc)
    (flow.connections.filter (fun c => c.source == current_node_id))

/-- A value of the `llm_info` metadata dictionary. -/
inductive MVal where
  | none
  | natv (n : Nat)
  | strv (s : String)
  | pathv (ps : List (String × String × String))
deriving Repr, DecidableEq

/-- The `llm_info` dictionary (choose_next, lines 73-84), with exactly the
keys the source writes; `wall_ms` is the measured wall-clock fallback of
`llm_answer.timing_ms or ...`. -/
def pathwayLlmInfo (llm_answer : LLMResult) (wall_ms : Nat)
    (available_pathways : List (String × String × String)) :
    List (String × MVal) :=
  [("timing_ms", MVal.natv (orDefaultNat llm_answer.timing_ms wall_ms)),
   ("model_name", MVal.strv (orDefaultStr llm_answer.model_name "unknown")),
   ("input_tokens", MVal.natv (orDefaultNat llm_answer.input_tokens 0)),
   ("output_tokens", MVal.natv (orDefaultNat llm_answer.output_tokens 0)),
   ("total_tokens", MVal.natv (orDefaultNat llm_answer.total_tokens 0)),
   ("estimated_cost_usd", MVal.natv (orDefaultNat llm_answer.estimated_cost_usd 0)),
   ("llm_response", if llm_answer.success then
      (match llm_answer.response with
       | Option.some s => MVal.strv s
       | Option.none => MVal.none)
    else MVal.none),
   ("available_pathways", MVal.pathv available_pathways),
   ("confidence_score", MVal.none),
   ("reasoning", MVal.none)]

/-- One step of `fuzzywuzzy`'s `process.extractOne` maximum: keep the first
candidate achieving the maximal score (Python `max` keeps the first). -/
def extractOneStep (score : String → String → Nat) (query : String)
    (best : Option (String × Nat)) (choice : String) : Option (String × Nat) :=
  match best with
  | Option.none => Option.some (choice, score query choice)
  | Option.some (b, bs) =>
      if score query choice > bs then Option.some (choice, score query choice)
      else Option.some (b, bs)

/-- `process.extractOne(query, choices, scorer=fuzz.ratio)`: the external
fuzzywuzzy library, modelled as the first argmax of the composite scorer
(`fuzz.ratio` after `full_process` preprocessing), which is the `score`
parameter of this development. -/
def extractOne (score : String → String → Nat) (query : String)
    (choices : List String) : Option (String × Nat) :=
  choices.foldl (extractOneStep score query) Option.none

/-- `choose_next` (pathway_selector.py, lines 55-158), parametrized by the
fuzzy scorer and by the `LLMResult` of the external LLM call. -/
def chooseNext (score : String → String → Nat) (flow : Flow)
    (_session : ChatSession) (current_node_id : String)
    (llm_answer : LLMResult) (wall_ms : Nat) :
    Except PyErr (String × List (String × MVal)) :=
  match formatPromptConnections flow current_node_id with
  | Except.error e => Except.error e
  | Except.ok connection_list =>
    let available_pathways :=
      connection_list.map (fun c => (c.label, c.description, c.target))
    let llm_info := pathwayLlmInfo llm_answer wall_ms available_pathways
    match llm_answer.response with
    | Option.some response =>
        if llm_answer.success then
          let labels := connection_list.map (fun c => c.label)
          if labels.isEmpty then Except.ok (current_node_id, llm_info)
          else
            match extractOne score response labels with
            | Option.none => Except.ok (current_node_id, llm_info)
            | Option.some (best_match, sc) =>
                let llm_info' :=
                  assocSet (assocSet llm_info "confidence_score" (MVal.natv sc))
                    "reasoning" (MVal.strv response)
                match connection_list.find? (fun c => c.label == best_match) with
                | Option.some selected =>
                    if sc ≥ FUZZY_THRESHOLD then
                      Except.ok (selected.target, llm_info')
                    else
                      Except.ok (selected.target, llm_info')
                | Option.none => Except.ok (current_node_id, llm_info')
        else Except.ok (current_node_id, llm_info)
    | Option.none => Except.ok (current_node_id, llm_info)

/-! Concrete fixtures for the pathway-selector counterexample. -/

def cxGlobalNode : Node :=
  { id := "g1", node_type := "global", is_global := true }

def cxPlainNode : Node :=
  { id := "n1", node_type := "normal" }

def cxConn : Connection :=
  { id := "c1", label := "alpha", description := "d", source := "n1",
    target := "n2" }

/-- A flow containing a global node (candidate construction raises). -/
def cxFlowGlobal : Flow :=
  { first_node_id := "n1", nodes := [cxPlainNode, cxGlobalNode],
    connections := [cxConn] }

/-- The same flow without the global node. -/
def cxFlowPlain : Flow :=
  { first_node_id := "n1", nodes := [cxPlainNode], connections := [cxConn] }

def cxSession : ChatSession :=
  { session_id := "s", current_node_id := "n1" }

def cxOkAnswer : LLMResult := { success := true, response := Option.some "alpha" }

def cxFailAnswer : LLMResult :=
  { success := false, response := Option.none,
    error_message := Option.some "boom" }

def cxScore : String → String → Nat := fun q c => if q == c then 100 else 0

/-! ## Orchestrator (`apps/engine/app/core/orchestrator.py`)

`run_step` is modelled with explicit state passing; event emission is a
side effect with no bearing on the stated properties and is dropped.  The
extractor's LLM behaviour is abstracted as an oracle: the mapping
`extract_variables` would return and the number of LLM calls it would
make.  Wall-clock totals are a parameter. -/

/-- `current_node.loop_enabled` (orchestrator.py line 167): the engine
`Node` model declares no such field, so pydantic raises `AttributeError`;
the read never yields a value. -/
def Node.getLoopEnabled (_ : Node) : Except PyErr Empty :=
  Except.error PyErr.attributeError

structure TokenCounts where
  input : Nat := 0
  output : Nat := 0
  total : Nat := 0
  cost_usd : Nat := 0
deriving Repr, DecidableEq

structure StepTimings where
  choose_next : Nat
  generate_response : Nat
  loop_evaluation : Nat
  total : Nat
  choose_next_llm_ms : Nat
  generate_response_llm_ms : Nat
  loop_evaluation_llm_ms : Nat
  choose_next_model : String
  generate_response_model : String
  loop_evaluation_model : String
  choose_next_tokens : TokenCounts
  generate_response_tokens : TokenCounts
  loop_evaluation_tokens : TokenCounts
deriving Repr, DecidableEq

/-- `_create_error_timings` (orchestrator.py, lines 517-547). -/
def createErrorTimings (total_time : Nat) : StepTimings :=
  { choose_next := 0, generate_response := 0, loop_evaluation := 0,
    total := total_time,
    choose_next_llm_ms := 0, generate_response_llm_ms := 0,
    loop_evaluation_llm_ms := 0,
    choose_next_model := "error", generate_response_model := "error",
    loop_evaluation_model := "error",
    choose_next_tokens := {}, generate_response_tokens := {},
    loop_evaluation_tokens := {} }

/-- The timings of the variable-extraction clarification branch
(orchestrator.py, lines 110-130): zeros with models `"none"`. -/
def clarificationTimings (total_time : Nat) : StepTimings :=
  { choose_next := 0, generate_response := 0, loop_evaluation := 0,
    total := total_time,
    choose_next_llm_ms := 0, generate_response_llm_ms := 0,
    loop_evaluation_llm_ms := 0,
    choose_next_model := "none", generate_response_model := "none",
    loop_evaluation_model := "none",
    choose_next_tokens := {}, generate_response_tokens := {},
    loop_evaluation_tokens := {} }

/-- `_validate_run_step_inputs` (lines 479-514), as the Boolean the
caller's `try` observes; the `flow`/`session` non-`None` checks and the
`isinstance(user_message, str)` check hold by typing. -/
def validateRunStepInputs (user_message : String) (session : ChatSession) :
    Bool :=
  if user_message = "" then false
  else if pyStrip user_message.toList = [] then false
  else if user_message.length > 10000 then false
  else if session.current_node_id = "" then false
  else true

/-- `should_continue_extraction` (variable_extractor.py, lines 398-423). -/
def shouldContinueExtraction (node : Node)
    (extracted_vars : List (String × PyVal)) : Bool :=
  if node.extract_vars.isEmpty then false
  else
    !(((node.extract_vars.filter (fun v => v.required)).map
        (fun v => v.name)).filter
      (fun v => !(extracted_vars.map Prod.fst).contains v)).isEmpty

/-- The missing required variables of the clarification branch
(orchestrator.py, lines 98-99). -/
def missingVars (node : Node) (session : ChatSession) :
    List VariableExtraction :=
  node.extract_vars.filter (fun var => var.required &&
    !(session.extracted_variables.map Prod.fst).contains var.name)

/-- Python `", ".join`. -/
def joinComma : List String → String
  | [] => ""
  | [s] => s
  | s :: rest => s ++ ", " ++ joinComma rest

/-- The deterministic clarification reply (orchestrator.py, line 103). -/
def clarificationReply (node : Node) (session : ChatSession) : String :=
  "Preciso de mais algumas informações. Você poderia me informar: " ++
    joinComma ((missingVars node session).map (fun v => v.description)) ++ "?"

inductive StepOutcome where
  | reply (text : String) (timings : StepTimings)
  | raised (e : PyErr)
deriving Repr, DecidableEq

structure StepResult where
  outcome : StepOutcome
  session : ChatSession
  llm_calls : Nat
deriving Repr, DecidableEq

/-- `run_step` (orchestrator.py, lines 15-476).  After validation it
appends the user message, resolves the node, runs extraction and the
clarification early return; every surviving path then reads
`current_node.loop_enabled` outside any `try`, which the `Node` model
does not declare, so the call raises `AttributeError` before pathway
selection or response generation. -/
def runStep (flow : Flow) (session : ChatSession) (user_message : String)
    (extracted : List (String × String)) (extract_llm_calls : Nat)
    (t_total : Nat) : StepResult :=
  if !validateRunStepInputs user_message session then
    { outcome := StepOutcome.reply
        "Desculpe, não consegui processar sua mensagem. Por favor, tente novamente."
        (createErrorTimings t_total),
      session := session, llm_calls := 0 }
  else
    let s₁ := session.addUserMessage user_message
    match flow.getNodeById s₁.current_node_id with
    | Option.none =>
        { outcome := StepOutcome.reply "Erro no fluxo de conversação."
            (createErrorTimings t_total),
          session := s₁, llm_calls := 0 }
    | Option.some current_node =>
        if current_node.extract_vars.isEmpty then
          match Node.getLoopEnabled current_node with
          | Except.error e =>
              { outcome := StepOutcome.raised e, session := s₁, llm_calls := 0 }
          | Except.ok x => x.elim
        else
          let s₂ := extracted.foldl
            (fun s p => ChatSession.setVariable s p.1 (PyVal.str p.2)) s₁
          if shouldContinueExtraction current_node s₂.extracted_variables then
            let reply := clarificationReply current_node s₂
            { outcome := StepOutcome.reply reply (clarificationTimings t_total),
              session := s₂.addAssistantMessage reply,
              llm_calls := extract_llm_calls }
          else
            match Node.getLoopEnabled current_node with
            | Except.error e =>
                { outcome := StepOutcome.raised e, session := s₂,
                  llm_calls := extract_llm_calls }
            | Except.ok x => x.elim

/-! Concrete fixtures for the orchestrator claims. -/

def cxExtractVar : VariableExtraction :=
  { name := "user_email", description := "seu e-mail", required := true }

def cxExtractNode : Node :=
  { id := "n1", node_type := "normal", extract_vars := [cxExtractVar] }

def cxFlowExtract : Flow :=
  { first_node_id := "n1", nodes := [cxExtractNode], connections := [] }

/-! ## Session Store (`apps/engine/app/storage/session_store.py`) and
session reset (`apps/messaging-gateway/app/api/sessions.py`)

The engine's Redis keyspace is modelled as an association list from keys
to stored sessions. -/

abbrev SessionStore := List (String × ChatSession)

/-- `save_session`: `set_json(f"session:{session.session_id}", ...)`. -/
def saveSession (store : SessionStore) (session : ChatSession) : SessionStore :=
  assocSet store ("session:" ++ session.session_id) session

/-- `load_session`: `get_json(f"session:{session_id}")`; a missing key is
`None`. -/
def loadSession (store : SessionStore) (session_id : String) :
    Option ChatSession :=
  List.lookup ("session:" ++ session_id) store

/-- The engine HTTP application's answer to `DELETE /session/{sid}`: the
engine's `main.py` registers only the health, chat, flow and ws routers,
none of which declares such a route, and `session_store.py` defines only
`save_session`/`load_session`; FastAPI therefore answers 404 and the
store is untouched. -/
def engineDeleteSession (store : SessionStore) (_session_id : String) :
    Nat × SessionStore :=
  (404, store)

/-- `EngineClient.clear_session` (engine_client.py, lines 71-110): issue
the DELETE; status 200 is success and status 404 is treated as "already
cleared", also success. -/
def clearSession (store : SessionStore) (session_id : String) :
    Bool × SessionStore :=
  let r := engineDeleteSession store session_id
  if r.1 = 200 then (true, r.2)
  else if r.1 = 404 then (true, r.2)
  else (false, r.2)

structure PlatformConversation where
  id : Nat
  bot_config_id : Nat
  platform_user_id : String
  session_id : String
  status : String := "active"
deriving Repr, DecidableEq

/-- The state `reset_session` manipulates: the conversation row, its
stored messages, and the engine's session store. -/
structure GatewayState where
  conversation : PlatformConversation
  messages : List String
  engineStore : SessionStore
deriving Repr, DecidableEq

structure ResetResponse where
  old_session_id : String
  new_session_id : String
  messages_deleted : Nat
deriving Repr, DecidableEq

/-- `reset_session` (sessions.py, lines 231-306): build the fresh id from
the bot platform, bot id, platform user id and a uuid fragment; clear the
old engine session through `clear_session`; delete the conversation's
messages; store the new id and mark the conversation active. -/
def resetSession (st : GatewayState) (platform : String) (uuid8 : String) :
    ResetResponse × GatewayState :=
  let old_session_id := st.conversation.session_id
  let new_session_id :=
    platform ++ "-" ++ toString st.conversation.bot_config_id ++ "-" ++
      st.conversation.platform_user_id ++ "-" ++ uuid8
  let cleared := clearSession st.engineStore old_session_id
  let conv := st.conversation
  ({ old_session_id := old_session_id, new_session_id := new_session_id,
     messages_deleted := st.messages.length },
   { conversation :=
       { conv with session_id := new_session_id, status := "active" },
     messages := [],
     engineStore := cleared.2 })

/-! Concrete fixtures for the session-reset claim. -/

def cxStoredSession : ChatSession :=
  { session_id := "old-session", current_node_id := "n1" }

def cxConversation : PlatformConversation :=
  { id := 7, bot_config_id := 3, platform_user_id := "42",
    session_id := "old-session" }

def cxGatewayState : GatewayState :=
  { conversation := cxConversation, messages := ["m1"],
    engineStore := saveSession [] cxStoredSession }

/-! ## Message splitting (`apps/messaging-gateway/app/services/telegram.py`)

`_split_message_at_separator` splits on `re.split(r"\n*\s*---\s*\n*", text)`
(the pattern is equivalent to a whitespace run, `---`, and a whitespace
run), strips each part and keeps the non-empty ones. -/

def sepChars : List Char := ['-', '-', '-']

/-- Whether the separator pattern matches at this position: leading
whitespace (the greedy `\n*\s*`) followed immediately by `---`. -/
def isMatchAt (l : List Char) : Bool := startsWith sepChars (l.dropWhile isWS)

/-- Consume a match at this position: the whitespace run, the `---`, and
the trailing whitespace run (the greedy `\s*\n*`). -/
def consumeMatch (l : List Char) : List Char :=
  ((l.dropWhile isWS).drop 3).dropWhile isWS

/-- The leftmost separator match, as `re.split` finds it: the text before
the match and the text after it. -/
def findMatch : List Char → Option (List Char × List Char)
  | [] => Option.none
  | c :: rest =>
      if isMatchAt (c :: rest) then Option.some ([], consumeMatch (c :: rest))
      else (findMatch rest).map (fun pr => (c :: pr.1, pr.2))

/-- `re.split` on the separator pattern, with a fuel argument (each match
consumes at least the three separator characters, so the text length is
ample fuel). -/
def rawSplitAux : Nat → List Char → List (List Char)
  | 0, l => [l]
  | fuel + 1, l =>
      match findMatch l with
      | Option.none => [l]
      | Option.some (pre, post) => pre :: rawSplitAux fuel post

def rawSplit (l : List Char) : List (List Char) := rawSplitAux l.length l

/-- The list comprehension of `_split_message_at_separator` (line 60):
strip each raw part and keep the non-empty ones. -/
def splitParts (l : List Char) : List (List Char) :=
  ((rawSplit l).map pyStrip).filter (fun p => !p.isEmpty)

/-- `_split_message_at_separator` (telegram.py, lines 41-65). -/
def splitMessageAtSeparator (text : String) : List String :=
  if text = "" then []
  else (splitParts text.toList).map (fun p => String.mk p)

/-- The claimed round-trip law, as a recognizer: `l` must read as its
parts in order, joined by exactly one `---` per adjacent pair, with only
whitespace at the boundaries of parts and separators and at the two ends
of the text. -/
def partsRejoin : List (List Char) → List Char → Bool
  | [], l => (l.dropWhile isWS).isEmpty
  | p :: ps, l =>
      let r := l.dropWhile isWS
      startsWith p r &&
        (match ps with
         | [] => ((r.drop p.length).dropWhile isWS).isEmpty
         | _ :: _ =>
             let r2 := (r.drop p.length).dropWhile isWS
             startsWith sepChars r2 && partsRejoin ps (r2.drop 3))

/-- The claimed law for one text: joining the split parts with `---`
reproduces the text up to the whitespace the split consumed. -/
def splitRoundTrip (l : List Char) : Bool := partsRejoin (splitParts l) l

/-! ## Telegram adapter deduplication
(`apps/messaging-gateway/app/services/telegram.py`)

Assistant-message parts reach the chat platform through two paths: the
WebSocket streaming loop of `_process_with_streaming` (lines 498-631) and
the HTTP fallback loop of `process_update` (lines 336-388).  Both consult
the per-session set `self.sent_message_parts[session_id]`; the streaming
loop additionally keeps a dictionary `messages_sent` of send timestamps
that is created afresh on every call. -/

/-- Python `a in b and len(a) < len(b)`: a proper substring. -/
def properSub (a b : String) : Bool :=
  containsSub a.toList b.toList && decide (a.length < b.length)

/-- `dedup_window = 2.0` seconds. -/
def dedupWindow : Int := 2

/-- Python `set.add` on the model of `sent_message_parts`. -/
def addPart (parts : List String) (s : String) : List String :=
  if s ∈ parts then parts else s :: parts

/-- The state one streaming call works on: its own `messages_sent`
dictionary, the session's shared `sent_message_parts`, and the log of the
sends that actually reached the platform. -/
structure StreamState where
  messagesSent : List (String × Int)
  sentParts : List String
  sends : List (String × Int)

/-- The exact-duplicate test of the streaming loop: `message_text in
messages_sent` and the previous send is less than `dedup_window` seconds
old. -/
def exactRecent (d : List (String × Int)) (text : String) (now : Int) : Bool :=
  match List.lookup text d with
  | Option.some t => decide (now - t < dedupWindow)
  | Option.none => false

/-- The substring test against `sent_message_parts`: the new message is a
proper substring of a sent part or a sent part is a proper substring of
it. -/
def substrDup (parts : List String) (text : String) : Bool :=
  parts.any (fun p => properSub text p || properSub p text)

/-- One message of the streaming loop: skip exact duplicates inside the
window, then skip proper-substring duplicates, else send and record the
message in `messages_sent` (with its timestamp) and in
`sent_message_parts`. -/
def streamStep (st : StreamState) (m : String × Int) : StreamState :=
  if exactRecent st.messagesSent m.1 m.2 then st
  else if substrDup st.sentParts m.1 then st
  else { messagesSent := assocSet st.messagesSent m.1 m.2,
         sentParts := addPart st.sentParts m.1,
         sends := st.sends ++ [(m.1, m.2)] }

/-- One `_process_with_streaming` call processes the received messages in
arrival order. -/
def runStreaming (msgs : List (String × Int)) (st : StreamState) : StreamState :=
  msgs.foldl streamStep st

/-- One part of the HTTP fallback loop: skip when the part is a proper
substring of a sent part, a sent part is a proper substring of it, or it
equals a sent part; else send and record it in `sent_message_parts`. -/
def httpStep (acc : List String × List (String × Int)) (m : String × Int) :
    List String × List (String × Int) :=
  if acc.1.any (fun sp => properSub m.1 sp || properSub sp m.1 || m.1 == sp)
  then acc
  else (addPart acc.1 m.1, acc.2 ++ [(m.1, m.2)])

/-- One adapter call for a session: a streaming call, which starts with a
fresh empty `messages_sent`, or an HTTP-fallback call, which has none. -/
inductive Invocation where
  | streaming (msgs : List (String × Int))
  | httpFallback (parts : List (String × Int))

def runInvocation (acc : List String × List (String × Int)) :
    Invocation → List String × List (String × Int)
  | Invocation.streaming msgs =>
      let st := runStreaming msgs
        { messagesSent := [], sentParts := acc.1, sends := acc.2 }
      (st.sentParts, st.sends)
  | Invocation.httpFallback parts => parts.foldl httpStep acc

/-- A session's lifetime: `sent_message_parts` starts empty and is shared
across all adapter calls; the second component logs every send with its
timestamp. -/
def runAdapter (invs : List Invocation) : List String × List (String × Int) :=
  invs.foldl runInvocation ([], [])

/-- The claimed property of one send against the earlier ones: not an
exact repeat within `dedup_window` seconds, not a proper substring of an
earlier send, no earlier send a proper substring of it. -/
def sendOk (earlier : List (String × Int)) (s : String × Int) : Bool :=
  earlier.all (fun e =>
    !(e.1 == s.1 && decide (s.2 - e.2 < dedupWindow)) &&
    !properSub s.1 e.1 && !properSub e.1 s.1)

def claimHoldsAux : List (String × Int) → List (String × Int) → Bool
  | _, [] => true
  | earlier, s :: rest => sendOk earlier s && claimHoldsAux (earlier ++ [s]) rest

/-- The claim, as a recognizer over the send log. -/
def claimHolds (sends : List (String × Int)) : Bool := claimHoldsAux [] sends

/-- No proper-substring relation, in either direction, between two
sends. -/
def noSubRel (a b : String × Int) : Prop :=
  properSub a.1 b.1 = false ∧ properSub b.1 a.1 = false

/-- An equal later send lies at least `dedup_window` seconds after the
earlier one. -/
def noRepeatRel (a b : String × Int) : Prop :=
  a.1 = b.1 → dedupWindow ≤ b.2 - a.2

/-! Basic lemmas about the string primitives. -/

theorem takeWhile_all_append {p : Char → Bool} {w : List Char}
    (hw : ∀ c ∈ w, p c = true) (l : List Char) :
    (w ++ l).takeWhile p = w ++ l.takeWhile p := by
  induction w with
  | nil => rfl
  | cons c t ih =>
      have hc : p c = true := hw c (List.mem_cons_self c t)
      simp only [List.cons_append, List.takeWhile_cons, hc, if_true]
      rw [ih (fun x hx => hw x (List.mem_cons_of_mem c hx))]

theorem dropWhile_all_append {p : Char → Bool} {w : List Char}
    (hw : ∀ c ∈ w, p c = true) (l : List Char) :
    (w ++ l).dropWhile p = l.dropWhile p := by
  induction w with
  | nil => rfl
  | cons c t ih =>
      have hc : p c = true := hw c (List.mem_cons_self c t)
      simp only [List.cons_append, List.dropWhile_cons, hc, if_true]
      exact ih (fun x hx => hw x (List.mem_cons_of_mem c hx))

theorem dropWhile_head_false {p : Char → Bool} {l t : List Char} {c : Char}
    (h : l.dropWhile p = c :: t) : p c = false := by
  induction l with
  | nil => simp at h
  | cons a rest ih =>
      by_cases ha : p a = true
      · rw [List.dropWhile_cons, if_pos ha] at h
        exact ih h
      · rw [List.dropWhile_cons, if_neg ha] at h
        cases h
        exact Bool.eq_false_iff.mpr ha

/-- `stripLeft` decomposition: a list is its whitespace head plus its left strip. -/
theorem stripLeft_decomp (l : List Char) :
    ∃ w, l = w ++ stripLeft l ∧ ∀ c ∈ w, isWS c = true := by
  refine ⟨l.takeWhile isWS, ?_, ?_⟩
  · exact (List.takeWhile_append_dropWhile (p := isWS) (l := l)).symm
  · intro c hc
    exact List.mem_takeWhile_imp hc

/-- `stripRight` decomposition: a list is its right strip plus its whitespace tail. -/
theorem stripRight_decomp (l : List Char) :
    ∃ w, l = stripRight l ++ w ∧ ∀ c ∈ w, isWS c = true := by
  refine ⟨(l.reverse.takeWhile isWS).reverse, ?_, ?_⟩
  · have h : l.reverse.takeWhile isWS ++ l.reverse.dropWhile isWS = l.reverse :=
      List.takeWhile_append_dropWhile (p := isWS) (l := l.reverse)
    calc l = l.reverse.reverse := by simp
    _ = (l.reverse.takeWhile isWS ++ l.reverse.dropWhile isWS).reverse := by rw [h]
    _ = (l.reverse.dropWhile isWS).reverse ++ (l.reverse.takeWhile isWS).reverse := by
          rw [List.reverse_append]
    _ = stripRight l ++ (l.reverse.takeWhile isWS).reverse := rfl
  · intro c hc
    exact List.mem_takeWhile_imp (List.mem_reverse.mp hc)

/-- `pyStrip` decomposition: whitespace margins around the stripped core. -/
theorem pyStrip_decomp (l : List Char) :
    ∃ w₁ w₂, l = w₁ ++ pyStrip l ++ w₂ ∧
      (∀ c ∈ w₁, isWS c = true) ∧ (∀ c ∈ w₂, isWS c = true) := by
  obtain ⟨w₁, h₁, hw₁⟩ := stripLeft_decomp l
  obtain ⟨w₂, h₂, hw₂⟩ := stripRight_decomp (stripLeft l)
  refine ⟨w₁, w₂, ?_, hw₁, hw₂⟩
  have h₂' : pyStrip l ++ w₂ = stripLeft l := by
    rw [pyStrip]; exact h₂.symm
  rw [List.append_assoc, h₂']
  exact h₁

/-- The head of a non-empty stripped list is not whitespace. -/
theorem pyStrip_head_not_ws {l : List Char} {c : Char} {t : List Char}
    (h : pyStrip l = c :: t) : isWS c = false := by
  obtain ⟨w, hw, _⟩ := stripRight_decomp (stripLeft l)
  rw [pyStrip] at h
  rw [h] at hw
  have hsl : l.dropWhile isWS = c :: (t ++ w) := by
    rw [← stripLeft, hw]; simp
  exact dropWhile_head_false (p := isWS) (l := l) hsl

theorem containsSub_ws_nil {p : Char} {ps w : List Char}
    (hp : isWS p = false) (hw : ∀ c ∈ w, isWS c = true) :
    containsSub (p :: ps) w = false := by
  induction w with
  | nil => rfl
  | cons c t ih =>
      have hc : isWS c = true := hw c (List.mem_cons_self c t)
      have hne : (p == c) = false := by
        simp only [beq_eq_false_iff_ne]
        intro h; rw [h] at hp; rw [hp] at hc; cases hc
      simp only [containsSub, startsWith, hne, Bool.false_and, Bool.false_or]
      exact ih (fun x hx => hw x (List.mem_cons_of_mem c hx))

theorem containsSub_ws_left {p : Char} {ps w : List Char}
    (hp : isWS p = false) (hw : ∀ c ∈ w, isWS c = true) (l : List Char) :
    containsSub (p :: ps) (w ++ l) = containsSub (p :: ps) l := by
  induction w with
  | nil => rfl
  | cons c t ih =>
      have hc : isWS c = true := hw c (List.mem_cons_self c t)
      have hne : (p == c) = false := by
        simp only [beq_eq_false_iff_ne]
        intro h; rw [h] at hp; rw [hp] at hc; cases hc
      simp only [List.cons_append, containsSub, startsWith, hne,
        Bool.false_and, Bool.false_or]
      exact ih (fun x hx => hw x (List.mem_cons_of_mem c hx))

theorem startsWith_ws_right {pat w : List Char}
    (hpat : ∀ c ∈ pat, isWS c = false) (hw : ∀ c ∈ w, isWS c = true) :
    ∀ x : List Char, startsWith pat (x ++ w) = startsWith pat x := by
  induction pat with
  | nil => intro x; cases x <;> rfl
  | cons p ps ih =>
      intro x
      cases x with
      | nil =>
          have hp : isWS p = false := hpat p (List.mem_cons_self p ps)
          simp only [List.nil_append]
          cases w with
          | nil => rfl
          | cons c t =>
              have hc : isWS c = true := hw c (List.mem_cons_self c t)
              have hne : (p == c) = false := by
                simp only [beq_eq_false_iff_ne]
                intro h; rw [h] at hp; rw [hp] at hc; cases hc
              simp [startsWith, hne]
      | cons a x' =>
          simp only [List.cons_append, startsWith, List.append_eq]
          rw [ih (fun c hc => hpat c (List.mem_cons_of_mem p hc)) x']

theorem containsSub_ws_right {p : Char} {ps w : List Char}
    (hpat : ∀ c ∈ p :: ps, isWS c = false) (hw : ∀ c ∈ w, isWS c = true) :
    ∀ x : List Char, containsSub (p :: ps) (x ++ w) = containsSub (p :: ps) x := by
  intro x
  induction x with
  | nil =>
      simp only [List.nil_append]
      rw [containsSub_ws_nil (hpat p (List.mem_cons_self p ps)) hw]
      rfl
  | cons c x' ih =>
      simp only [List.cons_append, containsSub, List.append_eq]
      rw [show c :: (x' ++ w) = (c :: x') ++ w from rfl,
        startsWith_ws_right hpat hw (c :: x'), ih]

theorem isWS_pyUpperChar {c : Char} (h : isWS c = true) : pyUpperChar c = c := by
  simp only [isWS, Bool.or_eq_true, beq_iff_eq] at h
  rcases h with ((((h | h) | h) | h) | h) | h <;> rw [h] <;> decide

theorem pyUpper_ws {w : List Char} (hw : ∀ c ∈ w, isWS c = true) :
    ∀ c ∈ pyUpper w, isWS c = true := by
  intro c hc
  obtain ⟨a, ha, rfl⟩ := List.mem_map.mp hc
  rw [isWS_pyUpperChar (hw a ha)]
  exact hw a ha

/-- Stripping before upper-casing does not change which non-whitespace
tokens occur as substrings. -/
theorem containsSub_pyUpper_pyStrip {p : Char} {ps : List Char}
    (hpat : ∀ c ∈ p :: ps, isWS c = false) (l : List Char) :
    containsSub (p :: ps) (pyUpper (pyStrip l)) =
      containsSub (p :: ps) (pyUpper l) := by
  obtain ⟨w₁, w₂, hdecomp, hw₁, hw₂⟩ := pyStrip_decomp l
  have hp : isWS p = false := hpat p (List.mem_cons_self p ps)
  calc containsSub (p :: ps) (pyUpper (pyStrip l))
      = containsSub (p :: ps) (pyUpper (pyStrip l) ++ pyUpper w₂) :=
        (containsSub_ws_right hpat (pyUpper_ws hw₂) (pyUpper (pyStrip l))).symm
    _ = containsSub (p :: ps)
          (pyUpper w₁ ++ (pyUpper (pyStrip l) ++ pyUpper w₂)) :=
        (containsSub_ws_left hp (pyUpper_ws hw₁) _).symm
    _ = containsSub (p :: ps) (pyUpper l) := by
        have hup : pyUpper l = pyUpper w₁ ++ (pyUpper (pyStrip l) ++ pyUpper w₂) := by
          conv_lhs => rw [hdecomp]
          simp [pyUpper, List.append_assoc]
        rw [hup]

/-- C5: for every response string, the loop evaluator's parser returns true
if and only if the case-folded response contains the token LOOP and does not
contain the token PROCEED; in every other case (PROCEED present, neither
token present, or empty response) it returns false. -/
theorem parseEvaluationResponse_iff_loop_without_proceed (response : String) :
    parseEvaluationResponse response =
      (containsSub loopToken (pyUpper response.toList) &&
        !containsSub proceedToken (pyUpper response.toList)) := by
  by_cases hr : response = ""
  · subst hr; decide
  · have hlt : loopToken = 'L' :: "OOP".toList := by decide
    have hpt : proceedToken = 'P' :: "ROCEED".toList := by decide
    have hl := @containsSub_pyUpper_pyStrip 'L' "OOP".toList
      (by decide) response.toList
    have hp := @containsSub_pyUpper_pyStrip 'P' "ROCEED".toList
      (by decide) response.toList
    simp only [parseEvaluationResponse, if_neg hr, hlt, hpt, hl, hp]
    cases containsSub ('L' :: "OOP".toList) (pyUpper response.toList) <;>
      cases containsSub ('P' :: "ROCEED".toList) (pyUpper response.toList) <;> simp

/-! Lemmas about `_substitute_variables`. -/

theorem substituteVariablesAux_nil (vars : List (String × PyVal)) :
    ∀ f : Nat, substituteVariablesAux vars f [] = [] := by
  intro f; cases f <;> rfl

theorem substituteVariablesAux_fuel (vars : List (String × PyVal)) :
    ∀ f₁ f₂ : Nat, ∀ l : List Char, l.length ≤ f₁ → l.length ≤ f₂ →
      substituteVariablesAux vars f₁ l = substituteVariablesAux vars f₂ l := by
  intro f₁
  induction f₁ with
  | zero =>
      intro f₂ l h₁ _
      have hl : l = [] := List.length_eq_zero.mp (Nat.le_zero.mp h₁)
      subst hl
      rw [substituteVariablesAux_nil, substituteVariablesAux_nil]
  | succ f ih =>
      intro f₂ l h₁ h₂
      rcases l with _ | ⟨c, _ | ⟨c₂, rest⟩⟩
      · rw [substituteVariablesAux_nil, substituteVariablesAux_nil]
      · cases f₂ with
        | zero => exact absurd h₂ (by simp)
        | succ g =>
            simp only [substituteVariablesAux]
            rw [substituteVariablesAux_nil, substituteVariablesAux_nil]
      · cases f₂ with
        | zero => exact absurd h₂ (by simp)
        | succ g =>
            have hcs₁ : (c₂ :: rest).length ≤ f := by simp at h₁ ⊢; omega
            have hcs₂ : (c₂ :: rest).length ≤ g := by simp at h₂ ⊢; omega
            simp only [substituteVariablesAux]
            by_cases hbr : c = '{' ∧ c₂ = '{'
            · rw [if_pos hbr, if_pos hbr]
              by_cases hw : (rest.takeWhile isWordChar).isEmpty = true
              · rw [if_pos hw, if_pos hw, ih g (c₂ :: rest) hcs₁ hcs₂]
              · rw [if_neg hw, if_neg hw]
                by_cases hsep :
                    startsWith ['}', '}'] (rest.dropWhile isWordChar) = true
                · rw [if_pos hsep, if_pos hsep]
                  have hd : (rest.dropWhile isWordChar).length ≤ rest.length :=
                    (List.dropWhile_suffix (l := rest) isWordChar).length_le
                  have hdr := List.length_drop 2 (rest.dropWhile isWordChar)
                  have hrest₁ : rest.length + 1 ≤ f := by simpa using hcs₁
                  have hrest₂ : rest.length + 1 ≤ g := by simpa using hcs₂
                  rw [ih g ((rest.dropWhile isWordChar).drop 2)
                    (by omega) (by omega)]
                · rw [if_neg hsep, if_neg hsep, ih g (c₂ :: rest) hcs₁ hcs₂]
            · rw [if_neg hbr, if_neg hbr, ih g (c₂ :: rest) hcs₁ hcs₂]

theorem substituteVariablesAux_no_brace (vars : List (String × PyVal)) :
    ∀ f : Nat, ∀ l : List Char, l.length ≤ f → (∀ c ∈ l, c ≠ '{') →
      substituteVariablesAux vars f l = l := by
  intro f
  induction f with
  | zero =>
      intro l h₁ _
      have hl : l = [] := List.length_eq_zero.mp (Nat.le_zero.mp h₁)
      subst hl; rfl
  | succ f ih =>
      intro l h₁ hnb
      rcases l with _ | ⟨c, _ | ⟨c₂, rest⟩⟩
      · rfl
      · simp only [substituteVariablesAux]
        rw [substituteVariablesAux_nil]
      · have hc : c ≠ '{' := hnb c (List.mem_cons_self c _)
        have hbr : ¬(c = '{' ∧ c₂ = '{') := fun h => hc h.1
        simp only [substituteVariablesAux, if_neg hbr]
        rw [ih (c₂ :: rest) (by simp at h₁ ⊢; omega)
          (fun x hx => hnb x (List.mem_cons_of_mem c hx))]

theorem substituteVariablesAux_skip (vars : List (String × PyVal)) :
    ∀ pre : List Char, ∀ f : Nat, ∀ l : List Char,
      (pre ++ l).length ≤ f → (∀ c ∈ pre, c ≠ '{') →
      substituteVariablesAux vars f (pre ++ l) =
        pre ++ substituteVariablesAux vars l.length l := by
  intro pre
  induction pre with
  | nil =>
      intro f l hlen _
      simpa using substituteVariablesAux_fuel vars f l.length l (by simpa using hlen)
        (le_refl _)
  | cons c t ih =>
      intro f l hlen hnb
      have hc : c ≠ '{' := hnb c (List.mem_cons_self c t)
      cases f with
      | zero => exact absurd hlen (by simp)
      | succ f =>
          rcases hd : t ++ l with _ | ⟨c₂, rest⟩
          · obtain ⟨ht, hl⟩ := List.append_eq_nil.mp hd
            subst ht; subst hl
            simp [substituteVariablesAux, substituteVariablesAux_nil]
          · have hbr : ¬(c = '{' ∧ c₂ = '{') := fun h => hc h.1
            have hgoal : c :: t ++ l = c :: c₂ :: rest := by
              rw [List.cons_append, hd]
            rw [hgoal]
            simp only [substituteVariablesAux, if_neg hbr]
            rw [← hd, ih f l (by simp at hlen ⊢; omega)
              (fun x hx => hnb x (List.mem_cons_of_mem c hx))]
            rfl

theorem substituteVariablesAux_placeholder (vars : List (String × PyVal)) :
    ∀ f : Nat, ∀ w rest : List Char, w ≠ [] → (∀ c ∈ w, isWordChar c = true) →
      ('{' :: '{' :: (w ++ '}' :: '}' :: rest)).length ≤ f →
      substituteVariablesAux vars f ('{' :: '{' :: (w ++ '}' :: '}' :: rest)) =
        replacerFor vars w ++ substituteVariablesAux vars rest.length rest := by
  intro f w rest hw hword hlen
  cases f with
  | zero => exact absurd hlen (by simp)
  | succ f =>
      have htake : (w ++ '}' :: '}' :: rest).takeWhile isWordChar = w := by
        rw [takeWhile_all_append hword]
        simp [List.takeWhile_cons, isWordChar]
      have hdrop : (w ++ '}' :: '}' :: rest).dropWhile isWordChar =
          '}' :: '}' :: rest := by
        rw [dropWhile_all_append hword]
        simp [List.dropWhile_cons, isWordChar]
      have hemp : w.isEmpty = false := by
        cases w with
        | nil => exact absurd rfl hw
        | cons a b => rfl
      have hsep : startsWith ['}', '}'] ('}' :: '}' :: rest) = true := by
        simp [startsWith]
      simp only [substituteVariablesAux, and_self, if_true, htake, hdrop, hemp,
        hsep, Bool.false_eq_true, if_false, List.drop_succ_cons, List.drop_zero]
      congr 1
      apply substituteVariablesAux_fuel
      · have := hlen; simp at this ⊢; omega
      · exact le_refl _

theorem string_mk_toList (s : String) : String.mk s.toList = s := by
  cases s; rfl

theorem startsWith_append_self : ∀ p x : List Char, startsWith p (p ++ x) = true := by
  intro p
  induction p with
  | nil => intro x; rfl
  | cons c t ih => intro x; simp [startsWith, ih]

theorem startsWith_decomp : ∀ p l : List Char, startsWith p l = true →
    l = p ++ l.drop p.length := by
  intro p
  induction p with
  | nil => intro l _; simp
  | cons c t ih =>
      intro l h
      cases l with
      | nil => cases h
      | cons a l' =>
          simp only [startsWith, Bool.and_eq_true, beq_iff_eq] at h
          obtain ⟨h1, h2⟩ := h
          subst h1
          simp only [List.length_cons, List.drop_succ_cons, List.cons_append,
            List.cons.injEq, true_and]
          exact ih l' h2

theorem claimSegmentsAux_nil : ∀ f : Nat, claimSegmentsAux f [] = [] := by
  intro f; cases f <;> rfl

theorem segDecode_claimSegmentsAux :
    ∀ f : Nat, ∀ l : List Char, l.length ≤ f →
      segDecode (claimSegmentsAux f l) = l := by
  intro f
  induction f with
  | zero =>
      intro l h₁
      have hl : l = [] := List.length_eq_zero.mp (Nat.le_zero.mp h₁)
      subst hl; rfl
  | succ f ih =>
      intro l h₁
      rcases l with _ | ⟨c, _ | ⟨c₂, rest⟩⟩
      · rfl
      · simp only [claimSegmentsAux]
        rw [claimSegmentsAux_nil]
        rfl
      · have hcs : (c₂ :: rest).length ≤ f := by simp at h₁ ⊢; omega
        simp only [claimSegmentsAux]
        by_cases hbr : c = '{' ∧ c₂ = '{'
        · rw [if_pos hbr]
          by_cases hw : (rest.takeWhile isWordChar).isEmpty = true
          · rw [if_pos hw]
            simp only [segDecode]
            rw [ih (c₂ :: rest) hcs]
          · rw [if_neg hw]
            by_cases hsep :
                startsWith ['}', '}'] (rest.dropWhile isWordChar) = true
            · rw [if_pos hsep]
              simp only [segDecode]
              have hdl : (rest.dropWhile isWordChar).length ≤ rest.length :=
                (List.dropWhile_suffix (l := rest) isWordChar).length_le
              have hdr := List.length_drop 2 (rest.dropWhile isWordChar)
              have hrest : rest.length + 1 ≤ f := by simpa using hcs
              rw [ih ((rest.dropWhile isWordChar).drop 2) (by omega)]
              obtain ⟨hc, hc₂⟩ := hbr
              subst hc; subst hc₂
              have hsplit := List.takeWhile_append_dropWhile isWordChar rest
              have hd := startsWith_decomp ['}', '}']
                (rest.dropWhile isWordChar) hsep
              have hrdec : rest = rest.takeWhile isWordChar ++
                  ('}' :: '}' :: (rest.dropWhile isWordChar).drop 2) := by
                conv_lhs => rw [← hsplit, hd]
                rfl
              rw [placeholderOf]
              conv_rhs => rw [hrdec]
              simp [List.append_assoc]
            · rw [if_neg hsep]
              simp only [segDecode]
              rw [ih (c₂ :: rest) hcs]
        · rw [if_neg hbr]
          simp only [segDecode]
          rw [ih (c₂ :: rest) hcs]

theorem segRender_ph (vars : List (String × PyVal)) (w : List Char)
    (t : List Segment) :
    segRender vars (Segment.ph w :: t) = replacerFor vars w ++ segRender vars t := by
  cases hl : List.lookup (String.mk w) vars with
  | none => simp [segRender, replacerFor, hl]
  | some v => simp [segRender, replacerFor, hl]

theorem substituteVariablesAux_render (vars : List (String × PyVal)) :
    ∀ f : Nat, ∀ l : List Char, l.length ≤ f →
      substituteVariablesAux vars f l = segRender vars (claimSegmentsAux f l) := by
  intro f
  induction f with
  | zero =>
      intro l h₁
      have hl : l = [] := List.length_eq_zero.mp (Nat.le_zero.mp h₁)
      subst hl; rfl
  | succ f ih =>
      intro l h₁
      rcases l with _ | ⟨c, _ | ⟨c₂, rest⟩⟩
      · rfl
      · simp only [substituteVariablesAux, claimSegmentsAux]
        rw [substituteVariablesAux_nil, claimSegmentsAux_nil]
        rfl
      · have hcs : (c₂ :: rest).length ≤ f := by simp at h₁ ⊢; omega
        simp only [substituteVariablesAux, claimSegmentsAux]
        by_cases hbr : c = '{' ∧ c₂ = '{'
        · rw [if_pos hbr, if_pos hbr]
          by_cases hw : (rest.takeWhile isWordChar).isEmpty = true
          · rw [if_pos hw, if_pos hw]
            simp only [segRender]
            rw [ih (c₂ :: rest) hcs]
          · rw [if_neg hw, if_neg hw]
            by_cases hsep :
                startsWith ['}', '}'] (rest.dropWhile isWordChar) = true
            · rw [if_pos hsep, if_pos hsep]
              have hdl : (rest.dropWhile isWordChar).length ≤ rest.length :=
                (List.dropWhile_suffix (l := rest) isWordChar).length_le
              have hdr := List.length_drop 2 (rest.dropWhile isWordChar)
              have hrest : rest.length + 1 ≤ f := by simpa using hcs
              rw [segRender_ph, ih ((rest.dropWhile isWordChar).drop 2) (by omega)]
            · rw [if_neg hsep, if_neg hsep]
              simp only [segRender]
              rw [ih (c₂ :: rest) hcs]
        · rw [if_neg hbr, if_neg hbr]
          simp only [segRender]
          rw [ih (c₂ :: rest) hcs]

/-- C4 (amended): for every text string and every session, the text reads
back verbatim from its leftmost-scan decomposition into placeholder
occurrences and the characters outside them, and `_substitute_variables`
returns exactly that decomposition rendered by the claim's law — each
`{{name}}` occurrence replaced by `str(v)` when
`extracted_variables.get(name)` yields a value `v` that is not `None`,
kept verbatim when `name` is absent or maps to `None`, and all text
outside placeholders unchanged. -/
theorem substituteVariables_spec (session : ChatSession) (text : String) :
    String.mk (segDecode (claimSegments text.toList)) = text ∧
    substituteVariables text session =
      String.mk (segRender session.extracted_variables
        (claimSegments text.toList)) ∧
    (∀ w : List Char,
       (List.lookup (String.mk w) session.extracted_variables = Option.none ∨
        List.lookup (String.mk w) session.extracted_variables =
          Option.some PyVal.none) →
       segRender session.extracted_variables [Segment.ph w] = placeholderOf w) ∧
    (∀ w : List Char, ∀ v : PyVal,
       List.lookup (String.mk w) session.extracted_variables = Option.some v →
       v ≠ PyVal.none →
       segRender session.extracted_variables [Segment.ph w] =
         (pyValStr v).toList) := by
  refine ⟨?_, ?_, ?_, ?_⟩
  · rw [claimSegments, segDecode_claimSegmentsAux _ _ (le_refl _),
      string_mk_toList]
  · rw [substituteVariables]
    by_cases ht : text = ""
    · subst ht
      rw [if_pos rfl]
      rfl
    · rw [if_neg ht, claimSegments,
        substituteVariablesAux_render _ _ _ (le_refl _)]
  · intro w hmiss
    rw [segRender_ph]
    rcases hmiss with hmiss | hmiss <;>
      simp [segRender, replacerFor, hmiss]
  · intro w v hfound hne
    rw [segRender_ph]
    simp [segRender, replacerFor, hfound, hne]

/-- Witness for C4's amended theorem at a concrete input: the binding
`x ↦ "7"` makes the render of the occurrence `{{x}}` equal `str("7")`. -/
theorem substituteVariables_spec_witness :
    List.lookup (String.mk ['x']) [("x", PyVal.str "7")] =
      Option.some (PyVal.str "7") ∧
    segRender [("x", PyVal.str "7")] [Segment.ph ['x']] =
      (pyValStr (PyVal.str "7")).toList :=
  ⟨by decide,
   (substituteVariables_spec
       { session_id := "s", current_node_id := "n",
         extracted_variables := [("x", PyVal.str "7")] } "").2.2.2
     ['x'] (PyVal.str "7") (by decide) (by decide)⟩

/-- C4 counterexample: with `extracted_variables = {x: None}` the key `x`
is present, yet `{{x}}` is left verbatim instead of being replaced by
`str(None)`. -/
theorem substituteVariables_none_key_counterexample :
    substituteVariables (String.mk ['{', '{', 'x', '}', '}'])
        { session_id := "s", current_node_id := "n",
          extracted_variables := [("x", PyVal.none)] }
      = String.mk ['{', '{', 'x', '}', '}'] ∧
    List.lookup "x" [("x", PyVal.none)] = Option.some PyVal.none ∧
    pyValStr PyVal.none = "None" ∧
    String.mk ['{', '{', 'x', '}', '}'] ≠ "None" := by
  refine ⟨?_, by decide, rfl, by decide⟩
  decide

/-! Lemmas about `_parse_extraction_response`. -/

theorem lookup_append {β : Type} (k : String) :
    ∀ l₁ l₂ : List (String × β),
      List.lookup k (l₁ ++ l₂) =
        (List.lookup k l₁).orElse (fun _ => List.lookup k l₂) := by
  intro l₁ l₂
  induction l₁ with
  | nil => simp [List.lookup]
  | cons p t ih =>
      obtain ⟨k', v'⟩ := p
      by_cases hk : k == k'
      · simp [List.lookup, hk]
      · simp only [List.cons_append, List.lookup, hk]
        exact ih

theorem extractionStep_acc (raw : List (String × JVal))
    (acc : List (String × String)) (cfg : VariableExtraction) :
    extractionStep raw acc cfg = acc ++ extractionStep raw [] cfg := by
  simp only [extractionStep]
  rcases hlook : List.lookup cfg.name raw with _ | jv
  · simp [collapseNull]
  · cases jv with
    | null => simp [collapseNull]
    | str s => simp only [collapseNull]; simp only [reduceCtorEq, if_false]
               split_ifs <;> simp
    | int n => simp only [collapseNull]; simp only [reduceCtorEq, if_false]
               split_ifs <;> simp
    | bool b => simp only [collapseNull]; simp only [reduceCtorEq, if_false]
                split_ifs <;> simp

theorem parseExtraction_fold_acc (raw : List (String × JVal)) :
    ∀ configs : List VariableExtraction, ∀ acc : List (String × String),
      List.foldl (extractionStep raw) acc configs =
        acc ++ List.foldl (extractionStep raw) [] configs := by
  intro configs
  induction configs with
  | nil => intro acc; simp
  | cons cfg rest ih =>
      intro acc
      simp only [List.foldl_cons]
      rw [ih (extractionStep raw acc cfg), extractionStep_acc,
        ih (extractionStep raw [] cfg), List.append_assoc]

theorem validateExtractedValue_name_only (cfg : VariableExtraction)
    (value : List Char) :
    validateExtractedValue cfg value =
      validateExtractedValue { name := cfg.name } value := rfl

/-- C6: for every well-formed JSON-object LLM response and every list of
configured variables, the extraction parser returns a mapping containing
exactly those configured variable names whose raw value is present, is not
the marker NOT_FOUND or NOT_PROVIDED, is non-empty after coercion to string
and trimming, and passes its name-keyed validator; each stored value is the
trimmed string coercion of the raw value. -/
theorem parseExtractionCore_lookup_iff (raw : List (String × JVal))
    (configs : List VariableExtraction) (name v : String) :
    List.lookup name (parseExtractionCore raw configs) = Option.some v ↔
      ((∃ cfg ∈ configs, cfg.name = name) ∧
       ∃ jv : JVal, List.lookup name raw = Option.some jv ∧ jv ≠ JVal.null ∧
         jv ≠ JVal.str "NOT_FOUND" ∧ jv ≠ JVal.str "NOT_PROVIDED" ∧
         pyStrip (pyStrJ jv).toList ≠ [] ∧
         validateExtractedValue { name := name } (pyStrip (pyStrJ jv).toList) = true ∧
         v = String.mk (pyStrip (pyStrJ jv).toList)) := by
  induction configs with
  | nil => simp [parseExtractionCore]
  | cons cfg rest ih =>
      rw [parseExtractionCore, List.foldl_cons,
        parseExtraction_fold_acc raw rest (extractionStep raw [] cfg),
        lookup_append, show List.foldl (extractionStep raw) [] rest =
          parseExtractionCore raw rest from rfl]
      by_cases hn : cfg.name = name
      · subst hn
        rcases hlook : List.lookup cfg.name raw with _ | jv
        · have hδ : extractionStep raw [] cfg = [] := by
            simp [extractionStep, collapseNull, hlook]
          rw [hδ]
          simp only [List.lookup, Option.orElse]
          rw [ih]
          simp [hlook]
        · rw [hlook] at ih
          by_cases hnull : jv = JVal.null
          · subst hnull
            have hδ : extractionStep raw [] cfg = [] := by
              simp [extractionStep, collapseNull, hlook]
            rw [hδ]
            simp only [List.lookup, Option.orElse]
            rw [ih]
            simp
          · by_cases hmark : jv = JVal.str "NOT_FOUND" ∨ jv = JVal.str "NOT_PROVIDED"
            · have hδ : extractionStep raw [] cfg = [] := by
                simp only [extractionStep, collapseNull, hlook]
                cases jv <;> simp_all
              rw [hδ]
              simp only [List.lookup, Option.orElse]
              rw [ih]
              constructor
              · rintro ⟨hex, jv', hjv', rest'⟩
                exact ⟨⟨cfg, List.mem_cons_self cfg rest, rfl⟩, jv', hjv', rest'⟩
              · rintro ⟨hex, jv', hjv', rest'⟩
                have hjj : jv = jv' := Option.some.inj hjv'
                subst hjj
                rcases hmark with hm | hm <;> subst hm <;> simp_all
            · by_cases hemp : pyStrip (pyStrJ jv).toList = []
              · have hδ : extractionStep raw [] cfg = [] := by
                  simp only [extractionStep, collapseNull, hlook]
                  cases jv <;> simp_all [List.isEmpty_iff]
                rw [hδ]
                simp only [List.lookup, Option.orElse]
                rw [ih]
                constructor
                · rintro ⟨hex, jv', hjv', rest'⟩
                  exact ⟨⟨cfg, List.mem_cons_self cfg rest, rfl⟩, jv', hjv', rest'⟩
                · rintro ⟨hex, jv', hjv', rest'⟩
                  have hjj : jv = jv' := Option.some.inj hjv'
                  subst hjj
                  simp_all
              · by_cases hval : validateExtractedValue cfg
                    (pyStrip (pyStrJ jv).toList) = true
                · have hδ : extractionStep raw [] cfg =
                      [(cfg.name, String.mk (pyStrip (pyStrJ jv).toList))] := by
                    simp only [extractionStep, collapseNull, hlook]
                    cases jv <;> simp_all [List.isEmpty_iff]
                  rw [hδ]
                  simp only [List.lookup, beq_self_eq_true, Option.orElse]
                  constructor
                  · intro h
                    have hv : String.mk (pyStrip (pyStrJ jv).toList) = v :=
                      Option.some.inj h
                    exact ⟨⟨cfg, List.mem_cons_self cfg rest, rfl⟩,
                      jv, rfl, hnull, fun hm => hmark (Or.inl hm),
                      fun hm => hmark (Or.inr hm), hemp, hval, hv.symm⟩
                  · rintro ⟨hex, jv', hjv', h₁, h₂, h₃, h₄, h₅, hv⟩
                    have hjj : jv = jv' := Option.some.inj hjv'
                    subst hjj
                    rw [hv]
                · have hδ : extractionStep raw [] cfg = [] := by
                    simp only [extractionStep, collapseNull, hlook]
                    cases jv <;> simp_all [List.isEmpty_iff]
                  rw [hδ]
                  simp only [List.lookup, Option.orElse]
                  rw [ih]
                  constructor
                  · rintro ⟨hex, jv', hjv', rest'⟩
                    exact ⟨⟨cfg, List.mem_cons_self cfg rest, rfl⟩, jv', hjv', rest'⟩
                  · rintro ⟨hex, jv', hjv', h₁, h₂, h₃, h₄, h₅, h₆⟩
                    have hjj : jv = jv' := Option.some.inj hjv'
                    subst hjj
                    exact absurd h₅ hval
      · have hδ : List.lookup name (extractionStep raw [] cfg) = Option.none := by
          rcases hlook : List.lookup cfg.name raw with _ | jv
          · simp [extractionStep, collapseNull, hlook]
          · have hne : (name == cfg.name) = false := by
              simp only [beq_eq_false_iff_ne]
              exact fun h => hn h.symm
            simp only [extractionStep, collapseNull, hlook]
            cases jv <;> split_ifs <;> simp_all [List.lookup]
        rw [hδ]
        simp only [Option.orElse]
        rw [ih]
        constructor
        · rintro ⟨hex, hrest⟩
          refine ⟨?_, hrest⟩
          obtain ⟨c, hc, hcn⟩ := hex
          exact ⟨c, List.mem_cons_of_mem cfg hc, hcn⟩
        · rintro ⟨hex, hrest⟩
          obtain ⟨c, hc, hcn⟩ := hex
          rcases List.mem_cons.mp hc with rfl | hc'
          · exact absurd hcn hn
          · exact ⟨⟨c, hc', hcn⟩, hrest⟩

/-- Witness for C6's theorem at a concrete input: an email variable whose
raw value ` a@b.c ` is stored trimmed. -/
theorem parseExtractionCore_lookup_iff_witness :
    List.lookup "user_email"
        (parseExtractionCore [("user_email", JVal.str " a@b.c ")]
          [({ name := "user_email" } : VariableExtraction)]) =
      Option.some "a@b.c" :=
  (parseExtractionCore_lookup_iff [("user_email", JVal.str " a@b.c ")]
      [({ name := "user_email" } : VariableExtraction)] "user_email" "a@b.c").mpr
    ⟨by decide, JVal.str " a@b.c ", by decide⟩

/-! Lemmas about `choose_next`. -/

theorem lookup_assocSet_self {α : Type} (l : List (String × α)) (k : String)
    (v : α) : List.lookup k (assocSet l k v) = Option.some v := by
  induction l with
  | nil => simp [assocSet, List.lookup]
  | cons p t ih =>
      obtain ⟨k', v'⟩ := p
      by_cases hk : k' = k
      · subst hk; simp [assocSet, List.lookup]
      · have hne : (k == k') = false :=
          beq_eq_false_iff_ne.mpr (fun h => hk h.symm)
        simp [assocSet, hk, List.lookup, hne, ih]

theorem lookup_assocSet_ne {α : Type} (l : List (String × α)) (k₁ k₂ : String)
    (v : α) (h : k₂ ≠ k₁) :
    List.lookup k₂ (assocSet l k₁ v) = List.lookup k₂ l := by
  induction l with
  | nil => simp [assocSet, List.lookup, beq_eq_false_iff_ne.mpr h]
  | cons p t ih =>
      obtain ⟨k', v'⟩ := p
      by_cases hk : k' = k₁
      · subst hk
        simp [assocSet, List.lookup, beq_eq_false_iff_ne.mpr h]
      · by_cases hkk : k₂ = k'
        · subst hkk; simp [assocSet, hk, List.lookup]
        · simp [assocSet, hk, List.lookup, beq_eq_false_iff_ne.mpr hkk, ih]

theorem formatPromptConnections_no_global (flow : Flow) (cur : String)
    (h : ∀ n ∈ flow.nodes, n.is_global = false) :
    formatPromptConnections flow cur =
      Except.ok (flow.connections.filter (fun c => c.source == cur)) := by
  rw [formatPromptConnections]
  have haux : ∀ nodes : List Node, (∀ n ∈ nodes, n.is_global = false) →
      ∀ acc : List Connection,
        nodes.foldlM
          (fun acc node =>
            if node.is_global then
              (virtualConnection node cur).map (fun c => acc ++ [c])
            else Except.ok acc) acc = Except.ok acc := by
    intro nodes
    induction nodes with
    | nil => intro _ acc; rfl
    | cons n t ih =>
        intro hh acc
        have hn : n.is_global = false := hh n (List.mem_cons_self n t)
        simp only [List.foldlM_cons, hn, Bool.false_eq_true, if_false]
        exact ih (fun x hx => hh x (List.mem_cons_of_mem n hx)) acc
  exact haux flow.nodes h _

theorem extractOne_go (score : String → String → Nat) (q : String) :
    ∀ (choices : List String) (b : String) (sc : Nat), sc = score q b →
      ∃ b' sc',
        List.foldl (extractOneStep score q) (Option.some (b, sc)) choices =
          Option.some (b', sc') ∧ (b' = b ∨ b' ∈ choices) ∧
        sc' = score q b' ∧ sc ≤ sc' ∧ ∀ c ∈ choices, score q c ≤ sc' := by
  intro choices
  induction choices with
  | nil =>
      intro b sc hsc
      exact ⟨b, sc, rfl, Or.inl rfl, hsc, le_refl _, by simp⟩
  | cons c t ih =>
      intro b sc hsc
      by_cases hgt : score q c > sc
      · have hstep : extractOneStep score q (Option.some (b, sc)) c =
            Option.some (c, score q c) := by simp [extractOneStep, hgt]
        obtain ⟨b', sc', heq, hmem, hsc', hle, hall⟩ := ih c (score q c) rfl
        refine ⟨b', sc', ?_, ?_, hsc', le_trans (le_of_lt hgt) hle, ?_⟩
        · simpa [List.foldl_cons, hstep] using heq
        · rcases hmem with rfl | hm
          · exact Or.inr (List.mem_cons_self b' t)
          · exact Or.inr (List.mem_cons_of_mem c hm)
        · intro x hx
          rcases List.mem_cons.mp hx with rfl | hx'
          · exact hle
          · exact hall x hx'
      · have hstep : extractOneStep score q (Option.some (b, sc)) c =
            Option.some (b, sc) := by simp [extractOneStep, hgt]
        obtain ⟨b', sc', heq, hmem, hsc', hle, hall⟩ := ih b sc hsc
        refine ⟨b', sc', by simpa [List.foldl_cons, hstep] using heq, ?_, hsc',
          hle, ?_⟩
        · rcases hmem with rfl | hm
          · exact Or.inl rfl
          · exact Or.inr (List.mem_cons_of_mem c hm)
        · intro x hx
          rcases List.mem_cons.mp hx with rfl | hx'
          · exact le_trans (not_lt.mp hgt) hle
          · exact hall x hx'

theorem extractOne_spec (score : String → String → Nat) (q : String)
    (choices : List String) (h : choices ≠ []) :
    ∃ b sc, extractOne score q choices = Option.some (b, sc) ∧ b ∈ choices ∧
      sc = score q b ∧ ∀ c ∈ choices, score q c ≤ sc := by
  cases choices with
  | nil => exact absurd rfl h
  | cons c t =>
      obtain ⟨b', sc', heq, hmem, hsc', hle, hall⟩ :=
        extractOne_go score q t c (score q c) rfl
      have hfirst : extractOne score q (c :: t) =
          List.foldl (extractOneStep score q) (Option.some (c, score q c)) t := by
        simp [extractOne, List.foldl_cons, extractOneStep]
      refine ⟨b', sc', hfirst.trans heq, ?_, hsc', ?_⟩
      · rcases hmem with rfl | hm
        · exact List.mem_cons_self b' t
        · exact List.mem_cons_of_mem c hm
      · intro x hx
        rcases List.mem_cons.mp hx with rfl | hx'
        · exact hle
        · exact hall x hx'

/-- C1 (amended): for flows without global nodes, when the LLM call
succeeds with a string response and at least one outgoing connection
exists, `choose_next` returns the target of a candidate whose label has
the highest fuzzy-ratio similarity to the response (no threshold
condition), and the metadata records that score and the raw response;
if the candidate list is empty it returns the current node id, and on
LLM failure it returns the current node id with `llm_response = None`
metadata and no `success` key (the dictionary never carries one).  For
flows with a global node the candidate construction reads the undeclared
`node_description` field and raises `AttributeError` instead. -/
theorem chooseNext_selection_spec (score : String → String → Nat) (flow : Flow)
    (session : ChatSession) (cur : String) (llm : LLMResult) (wall : Nat) :
    (∀ r : String, (∀ n ∈ flow.nodes, n.is_global = false) →
       llm.success = true → llm.response = Option.some r →
       flow.connections.filter (fun c => c.source == cur) ≠ [] →
       ∃ conn info,
         chooseNext score flow session cur llm wall =
           Except.ok (conn.target, info) ∧
         conn ∈ flow.connections.filter (fun c => c.source == cur) ∧
         (∀ c ∈ flow.connections.filter (fun c => c.source == cur),
            score r c.label ≤ score r conn.label) ∧
         List.lookup "confidence_score" info =
           Option.some (MVal.natv (score r conn.label)) ∧
         List.lookup "reasoning" info = Option.some (MVal.strv r)) ∧
    ((∀ n ∈ flow.nodes, n.is_global = false) →
       flow.connections.filter (fun c => c.source == cur) = [] →
       ∃ info, chooseNext score flow session cur llm wall =
         Except.ok (cur, info)) ∧
    ((∀ n ∈ flow.nodes, n.is_global = false) → llm.success = false →
       ∃ info, chooseNext score flow session cur llm wall =
           Except.ok (cur, info) ∧
         List.lookup "llm_response" info = Option.some MVal.none ∧
         List.lookup "success" info = Option.none) := by
  refine ⟨?_, ?_, ?_⟩
  · intro r hng hs hr hne
    have hfmt := formatPromptConnections_no_global flow cur hng
    simp only [chooseNext, hfmt, hr, hs, if_true]
    set outs := flow.connections.filter (fun c => c.source == cur) with houts
    have hlabne : outs.map (fun c => c.label) ≠ [] := by
      intro hcontra
      exact hne (List.map_eq_nil_iff.mp hcontra)
    have hlabemp : (outs.map (fun c => c.label)).isEmpty = false := by
      cases hout : outs.map (fun c => c.label) with
      | nil => exact absurd hout hlabne
      | cons a b => rfl
    obtain ⟨b, sc, hext, hbmem, hsc, hall⟩ :=
      extractOne_spec score r (outs.map (fun c => c.label)) hlabne
    obtain ⟨conn₀, hconn₀, hlab₀⟩ := List.mem_map.mp hbmem
    have hfindsome : (outs.find? (fun c => c.label == b)).isSome := by
      rw [List.find?_isSome]
      exact ⟨conn₀, hconn₀, by simp [hlab₀]⟩
    obtain ⟨conn, hfind⟩ := Option.isSome_iff_exists.mp hfindsome
    have hconnmem : conn ∈ outs := List.mem_of_find?_eq_some hfind
    have hconnlab : conn.label = b := by
      have := List.find?_some hfind
      simpa using this
    refine ⟨conn, assocSet
        (assocSet (pathwayLlmInfo llm wall
            (outs.map (fun c => (c.label, c.description, c.target))))
          "confidence_score" (MVal.natv sc)) "reasoning" (MVal.strv r),
      ?_, hconnmem, ?_, ?_, ?_⟩
    · simp only [hlabemp, Bool.false_eq_true, if_false, hext, hfind]
      by_cases hth : sc ≥ FUZZY_THRESHOLD <;> simp [hth]
    · intro c hc
      rw [hconnlab, ← hsc]
      exact hall c.label (List.mem_map.mpr ⟨c, hc, rfl⟩)
    · rw [lookup_assocSet_ne _ _ _ _ (by decide), lookup_assocSet_self,
        hconnlab, ← hsc]
    · rw [lookup_assocSet_self]
  · intro hng hemp
    have hfmt := formatPromptConnections_no_global flow cur hng
    simp only [chooseNext, hfmt, hemp]
    rcases llm.response with _ | r
    · exact ⟨_, rfl⟩
    · by_cases hs : llm.success <;> simp [hs]
  · intro hng hf
    have hfmt := formatPromptConnections_no_global flow cur hng
    refine ⟨pathwayLlmInfo llm wall
      ((flow.connections.filter (fun c => c.source == cur)).map
        (fun c => (c.label, c.description, c.target))), ?_, ?_, ?_⟩
    · simp only [chooseNext, hfmt]
      rcases llm.response with _ | r
      · rfl
      · simp [hf]
    · simp [pathwayLlmInfo, List.lookup, hf]
    · simp [pathwayLlmInfo, List.lookup]

/-- Witness for C1's amended theorem: a flow with one outgoing connection
labelled `alpha` and an LLM answer `alpha`. -/
theorem chooseNext_selection_spec_witness :
    ∃ conn info,
      chooseNext cxScore cxFlowPlain cxSession "n1" cxOkAnswer 5 =
        Except.ok (conn.target, info) ∧
      conn ∈ cxFlowPlain.connections.filter (fun c => c.source == "n1") ∧
      (∀ c ∈ cxFlowPlain.connections.filter (fun c => c.source == "n1"),
         cxScore "alpha" c.label ≤ cxScore "alpha" conn.label) ∧
      List.lookup "confidence_score" info =
        Option.some (MVal.natv (cxScore "alpha" conn.label)) ∧
      List.lookup "reasoning" info = Option.some (MVal.strv "alpha") :=
  (chooseNext_selection_spec cxScore cxFlowPlain cxSession "n1" cxOkAnswer 5).1
    "alpha" (by decide) rfl rfl (by decide)

/-- C1 counterexample: with a global node present the candidate
construction raises `AttributeError` instead of returning a pathway, and
on LLM failure the returned metadata has no `success` key at all. -/
theorem chooseNext_claim_counterexample :
    chooseNext cxScore cxFlowGlobal cxSession "n1" cxOkAnswer 5 =
        Except.error PyErr.attributeError ∧
    chooseNext cxScore cxFlowPlain cxSession "n1" cxFailAnswer 5 =
        Except.ok ("n1", pathwayLlmInfo cxFailAnswer 5 [("alpha", "d", "n2")]) ∧
    List.lookup "success" (pathwayLlmInfo cxFailAnswer 5 [("alpha", "d", "n2")]) =
        Option.none := by
  refine ⟨rfl, rfl, by decide⟩

/-! Lemmas about `run_step`. -/

theorem setVariable_foldl_history (l : List (String × String)) :
    ∀ s : ChatSession,
      (l.foldl (fun s p => ChatSession.setVariable s p.1 (PyVal.str p.2))
        s).history = s.history := by
  induction l with
  | nil => intro s; rfl
  | cons p t ih => intro s; rw [List.foldl_cons]; exact ih _

/-- C10: if the user message is empty, whitespace-only or longer than
10000 characters, or the session's `current_node_id` is empty, `run_step`
returns the canned user-facing error string with the error timings
(per-step times 0, model names "error", zero token counts and costs),
performs no LLM call, and leaves the session unchanged. -/
theorem runStep_invalid_input (flow : Flow) (session : ChatSession)
    (msg : String) (extracted : List (String × String))
    (extract_llm_calls t_total : Nat)
    (h : msg = "" ∨ pyStrip msg.toList = [] ∨ msg.length > 10000 ∨
      session.current_node_id = "") :
    runStep flow session msg extracted extract_llm_calls t_total =
      { outcome := StepOutcome.reply
          "Desculpe, não consegui processar sua mensagem. Por favor, tente novamente."
          (createErrorTimings t_total),
        session := session, llm_calls := 0 } ∧
    (createErrorTimings t_total).choose_next = 0 ∧
    (createErrorTimings t_total).generate_response = 0 ∧
    (createErrorTimings t_total).loop_evaluation = 0 ∧
    (createErrorTimings t_total).choose_next_llm_ms = 0 ∧
    (createErrorTimings t_total).generate_response_llm_ms = 0 ∧
    (createErrorTimings t_total).loop_evaluation_llm_ms = 0 ∧
    (createErrorTimings t_total).choose_next_model = "error" ∧
    (createErrorTimings t_total).generate_response_model = "error" ∧
    (createErrorTimings t_total).loop_evaluation_model = "error" ∧
    (createErrorTimings t_total).choose_next_tokens = {} ∧
    (createErrorTimings t_total).generate_response_tokens = {} ∧
    (createErrorTimings t_total).loop_evaluation_tokens = {} := by
  have hval : validateRunStepInputs msg session = false := by
    rw [validateRunStepInputs]
    rcases h with h | h | h | h
    · rw [if_pos h]
    · by_cases hm : msg = ""
      · rw [if_pos hm]
      · rw [if_neg hm, if_pos h]
    · by_cases hm : msg = ""
      · rw [if_pos hm]
      · by_cases hst : pyStrip msg.toList = []
        · rw [if_neg hm, if_pos hst]
        · rw [if_neg hm, if_neg hst, if_pos h]
    · by_cases hm : msg = ""
      · rw [if_pos hm]
      · by_cases hst : pyStrip msg.toList = []
        · rw [if_neg hm, if_pos hst]
        · by_cases hl : msg.length > 10000
          · rw [if_neg hm, if_neg hst, if_pos hl]
          · rw [if_neg hm, if_neg hst, if_neg hl, if_pos h]
  refine ⟨?_, rfl, rfl, rfl, rfl, rfl, rfl, rfl, rfl, rfl, rfl, rfl, rfl⟩
  simp [runStep, hval]

/-- Witness for C10 at the concrete input `""` (an empty user message). -/
theorem runStep_invalid_input_witness :
    runStep cxFlowExtract cxSession "" [] 0 7 =
      { outcome := StepOutcome.reply
          "Desculpe, não consegui processar sua mensagem. Por favor, tente novamente."
          (createErrorTimings 7),
        session := cxSession, llm_calls := 0 } ∧
    (createErrorTimings 7).choose_next = 0 ∧
    (createErrorTimings 7).generate_response = 0 ∧
    (createErrorTimings 7).loop_evaluation = 0 ∧
    (createErrorTimings 7).choose_next_llm_ms = 0 ∧
    (createErrorTimings 7).generate_response_llm_ms = 0 ∧
    (createErrorTimings 7).loop_evaluation_llm_ms = 0 ∧
    (createErrorTimings 7).choose_next_model = "error" ∧
    (createErrorTimings 7).generate_response_model = "error" ∧
    (createErrorTimings 7).loop_evaluation_model = "error" ∧
    (createErrorTimings 7).choose_next_tokens = {} ∧
    (createErrorTimings 7).generate_response_tokens = {} ∧
    (createErrorTimings 7).loop_evaluation_tokens = {} :=
  runStep_invalid_input cxFlowExtract cxSession "" [] 0 7 (Or.inl rfl)

/-- C3: for inputs that pass validation, resolve to a node of the flow,
and do not return early from the variable-extraction clarification
branch, `run_step` raises `AttributeError` at the loop-evaluation check
(`current_node.loop_enabled`, a field the engine's `Node` model does not
declare), so no such call reaches pathway selection or response
generation. -/
theorem runStep_raises_attribute_error (flow : Flow) (session : ChatSession)
    (msg : String) (extracted : List (String × String))
    (extract_llm_calls t_total : Nat) (node : Node)
    (hval : validateRunStepInputs msg session = true)
    (hnode : flow.getNodeById session.current_node_id = Option.some node)
    (hnoclar : node.extract_vars = [] ∨
      shouldContinueExtraction node
        ((extracted.foldl
            (fun s p => ChatSession.setVariable s p.1 (PyVal.str p.2))
            (session.addUserMessage msg)).extracted_variables) = false) :
    (runStep flow session msg extracted extract_llm_calls t_total).outcome =
      StepOutcome.raised PyErr.attributeError := by
  have hnode' : flow.getNodeById (session.addUserMessage msg).current_node_id =
      Option.some node := hnode
  simp only [runStep, hval, Bool.not_true, Bool.false_eq_true, if_false, hnode']
  by_cases hext : node.extract_vars.isEmpty
  · simp [hext, Node.getLoopEnabled]
  · rcases hnoclar with hc | hc
    · exact absurd (by simp [hc]) hext
    · simp [hext, hc, Node.getLoopEnabled]

/-- Witness for C3 at a concrete input: a node with no extraction
configuration. -/
theorem runStep_raises_attribute_error_witness :
    (runStep cxFlowPlain cxSession "hi" [] 0 3).outcome =
      StepOutcome.raised PyErr.attributeError :=
  runStep_raises_attribute_error cxFlowPlain cxSession "hi" [] 0 3 cxPlainNode
    (by decide) rfl (Or.inl rfl)

/-- C2: for inputs that pass validation and resolve to a node of the
flow, whenever `run_step` returns a reply (rather than raising), the
session history has grown by exactly two messages: the user message and
one assistant message carrying the reply. -/
theorem runStep_history_growth (flow : Flow) (session : ChatSession)
    (msg : String) (extracted : List (String × String))
    (extract_llm_calls t_total : Nat) (rep : String) (tim : StepTimings)
    (hval : validateRunStepInputs msg session = true)
    (hnode : ∃ node, flow.getNodeById session.current_node_id =
      Option.some node)
    (hout : (runStep flow session msg extracted extract_llm_calls
        t_total).outcome = StepOutcome.reply rep tim) :
    (runStep flow session msg extracted extract_llm_calls
        t_total).session.history =
      session.history ++ [{ role := "user", content := msg },
        { role := "assistant", content := rep }] := by
  obtain ⟨node, hnode⟩ := hnode
  have hnode' : flow.getNodeById (session.addUserMessage msg).current_node_id =
      Option.some node := hnode
  simp only [runStep, hval, Bool.not_true, Bool.false_eq_true, if_false,
    hnode'] at hout ⊢
  by_cases hext : node.extract_vars.isEmpty
  · simp only [hext, if_true, Node.getLoopEnabled] at hout
    cases hout
  · by_cases hclar : shouldContinueExtraction node
        ((extracted.foldl
            (fun s p => ChatSession.setVariable s p.1 (PyVal.str p.2))
            (session.addUserMessage msg)).extracted_variables)
    · simp only [hext, Bool.false_eq_true, if_false, hclar, if_true] at hout ⊢
      obtain ⟨hrep, htim⟩ := StepOutcome.reply.inj hout
      subst hrep
      simp [ChatSession.addAssistantMessage, setVariable_foldl_history,
        ChatSession.addUserMessage]
    · simp only [hext, Bool.false_eq_true, if_false, hclar,
        Node.getLoopEnabled] at hout
      cases hout

/-- Witness for C2 at a concrete input: a clarification turn on a node
requiring `user_email`, with no variables extracted. -/
theorem runStep_history_growth_witness :
    (runStep cxFlowExtract cxSession "hi" [] 0 3).session.history =
      cxSession.history ++ [{ role := "user", content := "hi" },
        { role := "assistant",
          content := clarificationReply cxExtractNode
            (cxSession.addUserMessage "hi") }] :=
  runStep_history_growth cxFlowExtract cxSession "hi" [] 0 3
    (clarificationReply cxExtractNode (cxSession.addUserMessage "hi"))
    (clarificationTimings 3) (by decide) ⟨cxExtractNode, rfl⟩ rfl

/-- C7 (code bug): after POST /sessions/{id}/reset, the conversation
carries a fresh session id and its stored messages are gone, but loading
the OLD session id from the engine's Session Store still returns the
stored session: the engine registers no DELETE /session route and the
store has no delete operation, and `clear_session` treats the resulting
404 as success. -/
theorem resetSession_leaves_old_session_loaded :
    (resetSession cxGatewayState "telegram" "deadbeef").1.old_session_id =
      "old-session" ∧
    (resetSession cxGatewayState "telegram" "deadbeef").2.messages = [] ∧
    (resetSession cxGatewayState "telegram" "deadbeef").2.conversation.session_id =
      "telegram-3-42-deadbeef" ∧
    "telegram-3-42-deadbeef" ≠ "old-session" ∧
    loadSession (resetSession cxGatewayState "telegram" "deadbeef").2.engineStore
      "old-session" = Option.some cxStoredSession := by
  refine ⟨rfl, rfl, rfl, by decide, rfl⟩


/-! Lemmas about `_split_message_at_separator`. -/

theorem dropWhile_all_nil {w : List Char} (hw : ∀ c ∈ w, isWS c = true) :
    w.dropWhile isWS = [] := by
  have h := dropWhile_all_append hw ([] : List Char)
  simpa using h

theorem findMatch_spec : ∀ l pre post : List Char,
    findMatch l = Option.some (pre, post) →
    ∃ w₁ w₂ : List Char, l = pre ++ (w₁ ++ (sepChars ++ (w₂ ++ post))) ∧
      (∀ c ∈ w₁, isWS c = true) ∧ (∀ c ∈ w₂, isWS c = true) := by
  intro l
  induction l with
  | nil => intro pre post h; cases h
  | cons c rest ih =>
      intro pre post h
      by_cases hm : isMatchAt (c :: rest) = true
      · simp only [findMatch, if_pos hm, Option.some.injEq, Prod.mk.injEq] at h
        obtain ⟨hpre, hpost⟩ := h
        subst hpre
        subst hpost
        have hsplit : (c :: rest).takeWhile isWS ++ (c :: rest).dropWhile isWS =
            c :: rest := List.takeWhile_append_dropWhile isWS (c :: rest)
        rw [isMatchAt] at hm
        have hd := startsWith_decomp sepChars ((c :: rest).dropWhile isWS) hm
        have hsplit₂ : (((c :: rest).dropWhile isWS).drop 3).takeWhile isWS ++
            (((c :: rest).dropWhile isWS).drop 3).dropWhile isWS =
            ((c :: rest).dropWhile isWS).drop 3 :=
          List.takeWhile_append_dropWhile isWS (((c :: rest).dropWhile isWS).drop 3)
        refine ⟨(c :: rest).takeWhile isWS,
          (((c :: rest).dropWhile isWS).drop 3).takeWhile isWS, ?_, ?_, ?_⟩
        · conv_lhs => rw [← hsplit]
          rw [List.nil_append]
          congr 1
          rw [consumeMatch]
          conv_lhs => rw [hd]
          congr 1
          rw [show sepChars.length = 3 from rfl] at hd
          exact hsplit₂.symm
        · intro x hx; exact List.mem_takeWhile_imp hx
        · intro x hx; exact List.mem_takeWhile_imp hx
      · simp only [findMatch, if_neg hm] at h
        rcases hrec : findMatch rest with _ | ⟨pre', post'⟩
        · rw [hrec] at h; cases h
        · rw [hrec] at h
          simp only [Option.map_some', Option.some.injEq, Prod.mk.injEq] at h
          obtain ⟨hpre, hpost⟩ := h
          subst hpre; subst hpost
          obtain ⟨w₁, w₂, hdec, hw₁, hw₂⟩ := ih pre' post' hrec
          exact ⟨w₁, w₂, by rw [List.cons_append, ← hdec], hw₁, hw₂⟩

theorem findMatch_post_lt {l pre post : List Char}
    (h : findMatch l = Option.some (pre, post)) : post.length < l.length := by
  obtain ⟨w₁, w₂, hdec, _, _⟩ := findMatch_spec l pre post h
  rw [hdec]
  simp [sepChars]
  omega

theorem rawSplitAux_ne_nil : ∀ (f : Nat) (l : List Char), rawSplitAux f l ≠ [] := by
  intro f l
  cases f with
  | zero => simp [rawSplitAux]
  | succ n => rcases h : findMatch l with _ | ⟨pre, post⟩ <;> simp [rawSplitAux, h]

theorem rawSplitAux_succ_none {f : Nat} {l : List Char}
    (h : findMatch l = Option.none) : rawSplitAux (f + 1) l = [l] := by
  simp [rawSplitAux, h]

theorem rawSplitAux_succ_some {f : Nat} {l pre post : List Char}
    (h : findMatch l = Option.some (pre, post)) :
    rawSplitAux (f + 1) l = pre :: rawSplitAux f post := by
  simp [rawSplitAux, h]

theorem rawSplitAux_fuel : ∀ f₁ f₂ : Nat, ∀ l : List Char,
    l.length ≤ f₁ → l.length ≤ f₂ → rawSplitAux f₁ l = rawSplitAux f₂ l := by
  intro f₁
  induction f₁ with
  | zero =>
      intro f₂ l h₁ _
      have hl : l = [] := List.length_eq_zero.mp (Nat.le_zero.mp h₁)
      subst hl
      cases f₂ with
      | zero => rfl
      | succ g => simp [rawSplitAux, findMatch]
  | succ f ih =>
      intro f₂ l h₁ h₂
      cases f₂ with
      | zero =>
          have hl : l = [] := List.length_eq_zero.mp (Nat.le_zero.mp h₂)
          subst hl
          simp [rawSplitAux, findMatch]
      | succ g =>
          rcases hfm : findMatch l with _ | ⟨pre, post⟩
          · rw [rawSplitAux_succ_none hfm, rawSplitAux_succ_none hfm]
          · have hlt := findMatch_post_lt hfm
            rw [rawSplitAux_succ_some hfm, rawSplitAux_succ_some hfm,
              ih g post (by omega) (by omega)]

theorem rawSplit_eq_cons {l pre post : List Char}
    (h : findMatch l = Option.some (pre, post)) :
    rawSplit l = pre :: rawSplit post := by
  have hlt := findMatch_post_lt h
  rw [rawSplit]
  rcases hl : l.length with _ | n
  · have : l = [] := List.length_eq_zero.mp hl
    subst this; cases h
  · rw [rawSplitAux_succ_some h,
      rawSplitAux_fuel n post.length post (by omega) (le_refl _)]
    rfl

theorem rawSplit_eq_self {l : List Char} (h : findMatch l = Option.none) :
    rawSplit l = [l] := by
  rw [rawSplit]
  rcases hl : l.length with _ | n
  · rfl
  · rw [rawSplitAux_succ_none h]

theorem partsRejoin_ws (ps : List (List Char)) {w : List Char}
    (hw : ∀ c ∈ w, isWS c = true) (l : List Char) :
    partsRejoin ps (w ++ l) = partsRejoin ps l := by
  cases ps with
  | nil => simp [partsRejoin, dropWhile_all_append hw]
  | cons p t => simp [partsRejoin, dropWhile_all_append hw]

theorem dropWhile_isWS_idem (l : List Char) :
    (l.dropWhile isWS).dropWhile isWS = l.dropWhile isWS := by
  cases hd : l.dropWhile isWS with
  | nil => rfl
  | cons c t =>
      have hc := dropWhile_head_false (p := isWS) hd
      simp [List.dropWhile_cons, hc]

theorem stripLeft_pyStrip (l : List Char) : stripLeft (pyStrip l) = pyStrip l := by
  cases hp : pyStrip l with
  | nil => rfl
  | cons c t =>
      have hc := pyStrip_head_not_ws hp
      simp [stripLeft, List.dropWhile_cons, hc]

theorem reverse_stripRight (y : List Char) :
    (stripRight y).reverse = y.reverse.dropWhile isWS := by
  simp [stripRight]

theorem stripRight_pyStrip (l : List Char) : stripRight (pyStrip l) = pyStrip l := by
  have h1 : (pyStrip l).reverse = (stripLeft l).reverse.dropWhile isWS :=
    reverse_stripRight (stripLeft l)
  rw [stripRight, h1, dropWhile_isWS_idem, ← h1]
  simp

theorem pyStrip_idem (l : List Char) : pyStrip (pyStrip l) = pyStrip l := by
  rw [pyStrip, stripLeft_pyStrip, stripRight_pyStrip]

theorem rejoin_aux : ∀ n : Nat, ∀ l : List Char, l.length ≤ n →
    (∀ r ∈ rawSplit l, pyStrip r ≠ []) →
    partsRejoin ((rawSplit l).map pyStrip) l = true := by
  intro n
  induction n with
  | zero =>
      intro l h₁ hyp
      have hl : l = [] := List.length_eq_zero.mp (Nat.le_zero.mp h₁)
      subst hl
      have hmem : ([] : List Char) ∈ rawSplit [] := by
        rw [rawSplit_eq_self (l := []) rfl]
        exact List.mem_singleton.mpr rfl
      exact absurd rfl (hyp [] hmem)
  | succ n ih =>
      intro l h₁ hyp
      rcases hfm : findMatch l with _ | ⟨pre, post⟩
      · rw [rawSplit_eq_self hfm]
        have hpre : pyStrip l ≠ [] :=
          hyp l (by rw [rawSplit_eq_self hfm]; exact List.mem_singleton.mpr rfl)
        simp only [List.map_cons, List.map_nil, partsRejoin]
        obtain ⟨w₂, hw, hwws⟩ := stripRight_decomp (stripLeft l)
        have hself : l.dropWhile isWS = pyStrip l ++ w₂ := hw
        rw [hself, startsWith_append_self, List.drop_left,
          dropWhile_all_nil hwws]
        rfl
      · obtain ⟨w₁, w₂, hdec, hw₁, hw₂⟩ := findMatch_spec l pre post hfm
        have hlt := findMatch_post_lt hfm
        rw [rawSplit_eq_cons hfm]
        have hpre : pyStrip pre ≠ [] :=
          hyp pre (by rw [rawSplit_eq_cons hfm]; exact List.mem_cons_self _ _)
        have hpostne : (rawSplit post).map pyStrip ≠ [] := by
          simp only [ne_eq, List.map_eq_nil_iff]
          exact rawSplitAux_ne_nil _ _
        obtain ⟨pc, pt, hps, hpchead⟩ :
            ∃ pc pt, pyStrip pre = pc :: pt ∧ isWS pc = false := by
          cases hps : pyStrip pre with
          | nil => exact absurd hps hpre
          | cons pc pt => exact ⟨pc, pt, rfl, pyStrip_head_not_ws hps⟩
        obtain ⟨a, b, hpredec, haws, hbws⟩ := pyStrip_decomp pre
        have hldec : l =
            a ++ (pyStrip pre ++ (b ++ (w₁ ++ (sepChars ++ (w₂ ++ post))))) := by
          rw [hdec]
          conv_lhs => rw [hpredec]
          simp [List.append_assoc]
        have hdrop1 : l.dropWhile isWS =
            pyStrip pre ++ (b ++ (w₁ ++ (sepChars ++ (w₂ ++ post)))) := by
          rw [hldec, dropWhile_all_append haws, hps]
          simp [List.cons_append, List.dropWhile_cons, hpchead]
        obtain ⟨q, qs, hq⟩ :
            ∃ q qs, (rawSplit post).map pyStrip = q :: qs := by
          cases hq : (rawSplit post).map pyStrip with
          | nil => exact absurd hq hpostne
          | cons q qs => exact ⟨q, qs, rfl⟩
        rw [List.map_cons, hq]
        simp only [partsRejoin]
        rw [hdrop1, startsWith_append_self, List.drop_left]
        simp only [Bool.true_and]
        have hr2 : (b ++ (w₁ ++ (sepChars ++ (w₂ ++ post)))).dropWhile isWS =
            sepChars ++ (w₂ ++ post) := by
          rw [dropWhile_all_append hbws, dropWhile_all_append hw₁,
            show sepChars ++ (w₂ ++ post) = '-' :: ('-' :: ('-' :: (w₂ ++ post)))
              from rfl,
            List.dropWhile_cons, if_neg (by decide)]
        rw [hr2, startsWith_append_self]
        simp only [Bool.true_and]
        rw [show (sepChars ++ (w₂ ++ post)).drop 3 = w₂ ++ post from by
          rw [show (3 : Nat) = sepChars.length from rfl, List.drop_left]]
        show partsRejoin (q :: qs) (w₂ ++ post) = true
        rw [partsRejoin_ws _ hw₂, ← hq]
        refine ih post (by omega) ?_
        intro r hr
        refine hyp r ?_
        rw [rawSplit_eq_cons hfm]
        exact List.mem_cons_of_mem _ hr

/-- C9 (amended): every part `_split_message_at_separator` returns is
non-empty and equal to its own strip; and for texts none of whose raw
`re.split` segments is whitespace-only, the text reads back as the split
parts joined by exactly one `---` per adjacent pair, up to whitespace at
part and separator boundaries (texts with leading, trailing or adjacent
separators lose them in the round trip). -/
theorem splitMessage_roundtrip_spec :
    (∀ text : List Char, ∀ p ∈ splitParts text, p ≠ [] ∧ pyStrip p = p) ∧
    (∀ text : List Char, (∀ r ∈ rawSplit text, pyStrip r ≠ []) →
       splitRoundTrip text = true) := by
  constructor
  · intro text p hp
    simp only [splitParts, List.mem_filter, List.mem_map] at hp
    obtain ⟨⟨r, hr, rfl⟩, hne⟩ := hp
    refine ⟨?_, pyStrip_idem r⟩
    simpa [List.isEmpty_iff] using hne
  · intro text hyp
    have hfilter : splitParts text = (rawSplit text).map pyStrip := by
      rw [splitParts, List.filter_eq_self]
      intro p hp
      obtain ⟨r, hr, rfl⟩ := List.mem_map.mp hp
      simpa [List.isEmpty_iff] using hyp r hr
    rw [splitRoundTrip, hfilter]
    exact rejoin_aux text.length text (le_refl _) hyp

/-- Witness for C9's amended theorem: a concrete two-part text. -/
theorem splitMessage_roundtrip_spec_witness :
    splitRoundTrip "Hello\n---\nWorld".toList = true :=
  splitMessage_roundtrip_spec.2 "Hello\n---\nWorld".toList (by decide)

/-- C9 counterexample: for the text `---` the split yields no parts, so
joining them reproduces the empty string, not the original text — the
round-trip law fails as stated. -/
theorem splitMessage_roundtrip_counterexample :
    splitMessageAtSeparator "---" = [] ∧ splitRoundTrip "---".toList = false := by
  exact ⟨by decide, by decide⟩

/-! Lemmas for the adapter-deduplication claim. -/

theorem mem_addPart {parts : List String} {x a : String} :
    a ∈ addPart parts x ↔ a = x ∨ a ∈ parts := by
  rw [addPart]
  by_cases h : x ∈ parts
  · rw [if_pos h]
    constructor
    · exact fun ha => Or.inr ha
    · rintro (rfl | ha)
      · exact h
      · exact ha
  · rw [if_neg h, List.mem_cons]

theorem substrDup_false {parts : List String} {text : String}
    (h : substrDup parts text = false) :
    ∀ p ∈ parts, properSub text p = false ∧ properSub p text = false := by
  intro p hp
  rw [substrDup, List.any_eq_false] at h
  have h' := h p hp
  simp only [Bool.or_eq_true, not_or, Bool.not_eq_true] at h'
  exact h'

theorem streamStep_skip₁ {st : StreamState} {m : String × Int}
    (h : exactRecent st.messagesSent m.1 m.2 = true) : streamStep st m = st := by
  simp [streamStep, h]

theorem streamStep_skip₂ {st : StreamState} {m : String × Int}
    (h : substrDup st.sentParts m.1 = true) : streamStep st m = st := by
  rw [streamStep]
  cases hx : exactRecent st.messagesSent m.1 m.2 <;> simp [hx, h]

theorem streamStep_send {st : StreamState} {m : String × Int}
    (h₁ : exactRecent st.messagesSent m.1 m.2 = false)
    (h₂ : substrDup st.sentParts m.1 = false) :
    streamStep st m =
      { messagesSent := assocSet st.messagesSent m.1 m.2,
        sentParts := addPart st.sentParts m.1,
        sends := st.sends ++ [(m.1, m.2)] } := by
  simp [streamStep, h₁, h₂]

theorem runStreaming_sub_inv : ∀ (msgs : List (String × Int)) (st : StreamState),
    st.sends.Pairwise noSubRel → (∀ s ∈ st.sends, s.1 ∈ st.sentParts) →
    (runStreaming msgs st).sends.Pairwise noSubRel ∧
      ∀ s ∈ (runStreaming msgs st).sends, s.1 ∈ (runStreaming msgs st).sentParts := by
  intro msgs
  induction msgs with
  | nil => intro st h1 h2; exact ⟨h1, h2⟩
  | cons m rest ih =>
      intro st h1 h2
      rw [runStreaming, List.foldl_cons]
      cases hx : exactRecent st.messagesSent m.1 m.2 with
      | true => rw [streamStep_skip₁ hx]; exact ih st h1 h2
      | false =>
          cases hsub : substrDup st.sentParts m.1 with
          | true => rw [streamStep_skip₂ hsub]; exact ih st h1 h2
          | false =>
              rw [streamStep_send hx hsub]
              refine ih _ ?_ ?_
              · rw [List.pairwise_append]
                refine ⟨h1, List.pairwise_singleton _ _, ?_⟩
                intro a ha b hb
                rw [List.mem_singleton] at hb
                subst hb
                have hsp := substrDup_false hsub a.1 (h2 a ha)
                exact ⟨hsp.2, hsp.1⟩
              · intro s hsm
                rw [List.mem_append, List.mem_singleton] at hsm
                rcases hsm with hsm | rfl
                · exact mem_addPart.mpr (Or.inr (h2 s hsm))
                · exact mem_addPart.mpr (Or.inl rfl)

theorem httpStep_inv (acc : List String × List (String × Int))
    (m : String × Int) (h1 : acc.2.Pairwise noSubRel)
    (h2 : ∀ s ∈ acc.2, s.1 ∈ acc.1) :
    (httpStep acc m).2.Pairwise noSubRel ∧
      ∀ s ∈ (httpStep acc m).2, s.1 ∈ (httpStep acc m).1 := by
  rw [httpStep]
  cases hd : acc.1.any (fun sp => properSub m.1 sp || properSub sp m.1 || m.1 == sp) with
  | true => rw [if_pos rfl]; exact ⟨h1, h2⟩
  | false =>
      rw [if_neg (by simp)]
      rw [List.any_eq_false] at hd
      constructor
      · rw [List.pairwise_append]
        refine ⟨h1, List.pairwise_singleton _ _, ?_⟩
        intro a ha b hb
        rw [List.mem_singleton] at hb
        subst hb
        have h' := hd a.1 (h2 a ha)
        simp only [Bool.or_eq_true, not_or, Bool.not_eq_true] at h'
        exact ⟨h'.1.2, h'.1.1⟩
      · intro s hsm
        rw [List.mem_append, List.mem_singleton] at hsm
        rcases hsm with hsm | rfl
        · exact mem_addPart.mpr (Or.inr (h2 s hsm))
        · exact mem_addPart.mpr (Or.inl rfl)

theorem httpFold_inv : ∀ (parts : List (String × Int))
    (acc : List String × List (String × Int)),
    acc.2.Pairwise noSubRel → (∀ s ∈ acc.2, s.1 ∈ acc.1) →
    (parts.foldl httpStep acc).2.Pairwise noSubRel ∧
      ∀ s ∈ (parts.foldl httpStep acc).2, s.1 ∈ (parts.foldl httpStep acc).1 := by
  intro parts
  induction parts with
  | nil => intro acc h1 h2; exact ⟨h1, h2⟩
  | cons m rest ih =>
      intro acc h1 h2
      rw [List.foldl_cons]
      obtain ⟨g1, g2⟩ := httpStep_inv acc m h1 h2
      exact ih _ g1 g2

theorem runInvocation_inv (acc : List String × List (String × Int))
    (inv : Invocation) (h1 : acc.2.Pairwise noSubRel)
    (h2 : ∀ s ∈ acc.2, s.1 ∈ acc.1) :
    (runInvocation acc inv).2.Pairwise noSubRel ∧
      ∀ s ∈ (runInvocation acc inv).2, s.1 ∈ (runInvocation acc inv).1 := by
  cases inv with
  | streaming msgs =>
      exact runStreaming_sub_inv msgs
        { messagesSent := [], sentParts := acc.1, sends := acc.2 } h1 h2
  | httpFallback parts => exact httpFold_inv parts acc h1 h2

theorem runFold_inv : ∀ (invs : List Invocation)
    (acc : List String × List (String × Int)),
    acc.2.Pairwise noSubRel → (∀ s ∈ acc.2, s.1 ∈ acc.1) →
    (invs.foldl runInvocation acc).2.Pairwise noSubRel ∧
      ∀ s ∈ (invs.foldl runInvocation acc).2,
        s.1 ∈ (invs.foldl runInvocation acc).1 := by
  intro invs
  induction invs with
  | nil => intro acc h1 h2; exact ⟨h1, h2⟩
  | cons inv rest ih =>
      intro acc h1 h2
      rw [List.foldl_cons]
      obtain ⟨g1, g2⟩ := runInvocation_inv acc inv h1 h2
      exact ih _ g1 g2

theorem runStreaming_time_inv : ∀ (msgs : List (String × Int)) (st : StreamState),
    msgs.Pairwise (fun a b => a.2 ≤ b.2) →
    (∀ text t, List.lookup text st.messagesSent = Option.some t →
      ∀ m ∈ msgs, t ≤ m.2) →
    st.sends.Pairwise noRepeatRel →
    (∀ s ∈ st.sends, ∃ t, List.lookup s.1 st.messagesSent = Option.some t ∧
      s.2 ≤ t) →
    (runStreaming msgs st).sends.Pairwise noRepeatRel := by
  intro msgs
  induction msgs with
  | nil => intro st _ _ h3 _; exact h3
  | cons m rest ih =>
      intro st hmono hbound h3 h4
      rw [List.pairwise_cons] at hmono
      obtain ⟨hm_rest, hmono'⟩ := hmono
      rw [runStreaming, List.foldl_cons]
      cases hx : exactRecent st.messagesSent m.1 m.2 with
      | true =>
          rw [streamStep_skip₁ hx]
          exact ih st hmono'
            (fun text t hl m' hm' => hbound text t hl m' (List.mem_cons_of_mem _ hm'))
            h3 h4
      | false =>
          cases hsub : substrDup st.sentParts m.1 with
          | true =>
              rw [streamStep_skip₂ hsub]
              exact ih st hmono'
                (fun text t hl m' hm' =>
                  hbound text t hl m' (List.mem_cons_of_mem _ hm'))
                h3 h4
          | false =>
              rw [streamStep_send hx hsub]
              refine ih _ hmono' ?_ ?_ ?_
              · intro text t hl m' hm'
                by_cases he : text = m.1
                · subst he
                  rw [lookup_assocSet_self] at hl
                  obtain rfl : m.2 = t := Option.some.inj hl
                  exact hm_rest m' hm'
                · rw [lookup_assocSet_ne st.messagesSent m.1 text m.2 he] at hl
                  exact hbound text t hl m' (List.mem_cons_of_mem _ hm')
              · rw [List.pairwise_append]
                refine ⟨h3, List.pairwise_singleton _ _, ?_⟩
                intro a ha b hb
                rw [List.mem_singleton] at hb
                subst hb
                intro heq
                obtain ⟨t, hlook, hle⟩ := h4 a ha
                rw [heq] at hlook
                rw [exactRecent, hlook] at hx
                have hnot := of_decide_eq_false hx
                rw [dedupWindow] at hnot ⊢
                omega
              · intro s hsm
                rw [List.mem_append, List.mem_singleton] at hsm
                rcases hsm with hsm | rfl
                · obtain ⟨t, hlook, hle⟩ := h4 s hsm
                  by_cases he : s.1 = m.1
                  · refine ⟨m.2, ?_, ?_⟩
                    · rw [he, lookup_assocSet_self]
                    · have := hbound s.1 t hlook m (List.mem_cons_self _ _)
                      omega
                  · exact ⟨t,
                      by rw [lookup_assocSet_ne st.messagesSent m.1 s.1 m.2 he]
                         exact hlook,
                      hle⟩
                · exact ⟨m.2, lookup_assocSet_self _ _ _, le_refl _⟩

/-- C8 (amended): across a session's whole lifetime (streaming calls and
HTTP fallback combined) no send is in a proper-substring relation, in
either direction, with any other send — parts (b) and (c) of the claim
hold globally.  Part (a), the two-second exact-duplicate suppression,
holds only within a single streaming call: `messages_sent` is a local
variable of `_process_with_streaming`, so for one call's sends, delivered
in chronological order, an equal later send lies at least `dedup_window`
seconds after the earlier one. -/
theorem adapterDedup_spec :
    (∀ invs : List Invocation, (runAdapter invs).2.Pairwise noSubRel) ∧
    (∀ (msgs : List (String × Int)) (parts : List String),
      msgs.Pairwise (fun a b => a.2 ≤ b.2) →
      (runStreaming msgs
          { messagesSent := [], sentParts := parts,
            sends := [] }).sends.Pairwise noRepeatRel) := by
  constructor
  · intro invs
    exact (runFold_inv invs ([], []) List.Pairwise.nil
      (fun s hs => absurd hs (List.not_mem_nil s))).1
  · intro msgs parts hmono
    refine runStreaming_time_inv msgs _ hmono ?_ List.Pairwise.nil
      (fun s hs => absurd hs (List.not_mem_nil s))
    intro text t hl
    simp [List.lookup] at hl

/-- Witness for C8's amended theorem: one streaming call delivering the
same text at times 0 and 3 (outside the window). -/
theorem adapterDedup_spec_witness :
    ([("a", (0 : Int)), ("a", 3)] : List (String × Int)).Pairwise
      (fun a b => a.2 ≤ b.2) ∧
    (runStreaming [("a", (0 : Int)), ("a", 3)]
        { messagesSent := [], sentParts := [],
          sends := [] }).sends.Pairwise noRepeatRel :=
  ⟨by decide, adapterDedup_spec.2 [("a", (0 : Int)), ("a", 3)] [] (by decide)⟩

/-- C8 counterexample: two streaming calls for the same session, each
delivering the text `hi`, one second apart.  `messages_sent` is created
afresh by the second call, and the shared `sent_message_parts` check only
catches proper substrings, so `hi` is sent again one second after it was
first sent — an exact duplicate within the two-second window, violating
part (a) of the claim. -/
theorem adapterDedup_counterexample :
    (runAdapter [Invocation.streaming [("hi", (0 : Int))],
        Invocation.streaming [("hi", 1)]]).2 = [("hi", 0), ("hi", 1)] ∧
    claimHolds (runAdapter [Invocation.streaming [("hi", (0 : Int))],
        Invocation.streaming [("hi", 1)]]).2 = false :=
  ⟨by decide, by decide⟩

end EasyPath
